import Mathlib

/-!
Verification of the food-data-api repository core against its specification.

The definitions below are shallow embeddings of the Python sources:
  * `src/api/main.py`          — price history store (`ingest_prices`, `get_prices`,
                                 `get_price_history`), brand lookup (`get_brand`),
                                 weight normalizer (`parse_weight_grams`)
  * `src/scrapers/filter_food_products.py` — food classifier (`is_food_product`)
  * `src/scrapers/zepto_html_parser.py`    — content extractor (`parse_zepto_html`)
  * `src/scrapers/zepto_scraper.py`        — reference parser (`parse_product_url`)

Python strings are modelled as `String`/`List Char` (ASCII-faithful: `str.lower`
is modelled by `Char.toLower`, which agrees with Python on ASCII, the alphabet of
every keyword list and pattern in the sources).  JSON numbers are modelled as
exact rationals `ℚ`; the source's IEEE floating point arithmetic only appears in
derived display fields (`discount_pct`, weight values), and no claim checked here
depends on floating-point rounding.  Mutable state (the module-level `PRICE_DATA`
dict) is modelled by explicit state passing over an insertion-ordered association
list, which is exactly the semantics of a Python `dict` (unique keys, insertion
order preserved, update-in-place keeps the position).
-/

/-- Python `list[-n:]`: the last `n` elements of a list (the whole list when it is
shorter than `n`).  Used by `ingest_prices` as `price_history[-100:]`. -/
def takeLast (n : Nat) (l : List α) : List α := l.drop (l.length - n)

/-- Python `list[::2]`: every other element, starting with the first.  Used by
`parse_zepto_html` as `mrp_raw[::2]`. -/
def everyOther : List α → List α
  | [] => []
  | [x] => [x]
  | x :: _ :: xs => x :: everyOther xs

/-- Lowercase a character list (Python `str.lower()` on ASCII text). -/
def lowerL (l : List Char) : List Char := l.map Char.toLower

/-- Lowercase a string (Python `str.lower()` on ASCII text). -/
def lowerS (s : String) : String := ⟨lowerL s.data⟩

/-- Containment of one character list in another (contiguous substring). -/
def infixOfL (needle : List Char) : List Char → Bool
  | [] => needle.isEmpty
  | c :: rest => needle.isPrefixOf (c :: rest) || infixOfL needle rest

/-- Python `needle in haystack` on strings: substring containment. -/
def substrOf (needle hay : String) : Bool := infixOfL needle.data hay.data

/-- One price observation as appended by `ingest_prices` (main.py lines 293-299).
`location` and `timestamp` are the batch-level strings. -/
structure PriceObservation where
  mrp : Option ℚ
  selling_price : Option ℚ
  discount_pct : Option ℚ
  location : String
  timestamp : String
deriving DecidableEq, Repr

/-- One tracked series in `PRICE_DATA` (main.py lines 286-291). -/
structure PriceSeries where
  name : String
  packsize : Option String
  source : String
  price_history : List PriceObservation
deriving DecidableEq, Repr

/-- The `PRICE_DATA` dict: an insertion-ordered association list with unique keys. -/
abbrev PriceStore := List (String × PriceSeries)

/-- Python `dict` assignment `d[k] = v`: overwrite in place when the key exists
(keeping its position), otherwise append at the end. -/
def setStore : PriceStore → String → PriceSeries → PriceStore
  | [], k, v => [(k, v)]
  | (k', v') :: rest, k, v =>
    if k' = k then (k, v) :: rest else (k', v') :: setStore rest k v

/-- One element of the `products` array accepted by the ingest endpoint
(main.py lines 258-268); absent JSON fields are `none`. -/
structure IngestProduct where
  name : String
  packsize : Option String
  mrp : Option ℚ
  selling_price : Option ℚ
  discount_pct : Option ℚ
  variant_id : Option String
deriving DecidableEq, Repr

/-- Python `p.get('variant_id') or p.get('name')` (main.py line 282): the name is
used when the variant id is absent or the empty string (both falsy). -/
def keyBase (p : IngestProduct) : String :=
  match p.variant_id with
  | some v => if v = "" then p.name else v
  | none => p.name

/-- Series key `f"{source}:{...}"` (main.py line 282). -/
def seriesKey (source : String) (p : IngestProduct) : String :=
  source ++ ":" ++ keyBase p

/-- The observation record appended for one product (main.py lines 293-299). -/
def mkObs (p : IngestProduct) (location timestamp : String) : PriceObservation :=
  { mrp := p.mrp
    selling_price := p.selling_price
    discount_pct := p.discount_pct
    location := location
    timestamp := timestamp }

/-- Body of the per-product loop of `ingest_prices` (main.py lines 281-303):
resolve or create the series, append the observation, keep the last 100 points. -/
def ingestOne (source location timestamp : String) (store : PriceStore)
    (p : IngestProduct) : PriceStore :=
  let key := seriesKey source p
  let series :=
    match store.lookup key with
    | some s => s
    | none =>
      { name := p.name, packsize := p.packsize, source := source,
        price_history := ([] : List PriceObservation) }
  let series' := { series with
    price_history := takeLast 100 (series.price_history ++ [mkObs p location timestamp]) }
  setStore store key series'

/-- The request body of `POST /prices/ingest` (main.py lines 253-277); `source`
and `location` are `none` when the JSON field is missing. -/
structure IngestData where
  products : List IngestProduct
  source : Option String
  location : Option String
deriving DecidableEq, Repr

/-- Response of `POST /prices/ingest` (main.py lines 309-314). -/
structure IngestResponse where
  status : String
  ingested : Nat
  total_tracked : Nat
  timestamp : String
deriving DecidableEq, Repr

/-- The `ingest_prices` endpoint (main.py lines 252-314) as a state transformer:
given the request body, the current timestamp string and the store, it returns
the updated store and the response.  The file write (line 306) persists the
returned store verbatim and is outside the logical state. -/
def ingest_prices (data : IngestData) (timestamp : String) (store : PriceStore) :
    PriceStore × IngestResponse :=
  let source := data.source.getD "unknown"
  let location := data.location.getD "unknown"
  let store' := data.products.foldl (ingestOne source location timestamp) store
  (store', { status := "success", ingested := data.products.length,
             total_tracked := store'.length, timestamp := timestamp })

/-- Run a sequence of ingest batches (each with its own `datetime.now()` string)
against a store.  This is the set of stores reachable through the API. -/
def processBatches : List (IngestData × String) → PriceStore → PriceStore
  | [], store => store
  | (d, ts) :: rest, store => processBatches rest (ingest_prices d ts store).1

/-- The observations a single batch generates for one series key, in ingestion
order. -/
def batchObsFor (key : String) (d : IngestData) (ts : String) : List PriceObservation :=
  ((d.products.filter (fun p => seriesKey (d.source.getD "unknown") p = key)).map
    (fun p => mkObs p (d.location.getD "unknown") ts))

/-- All observations a sequence of batches generates for one series key, in
ingestion order. -/
def allObsFor (key : String) : List (IngestData × String) → List PriceObservation
  | [] => []
  | (d, ts) :: rest => batchObsFor key d ts ++ allObsFor key rest

/-- Row of the `GET /prices` response (main.py lines 333-343): the series
metadata plus the latest observation only. -/
structure PriceRow where
  key : String
  name : String
  packsize : Option String
  source : String
  current_price : Option ℚ
  mrp : Option ℚ
  discount_pct : Option ℚ
  last_updated : Option String
  price_points : Nat
deriving DecidableEq, Repr

/-- Build one `GET /prices` row from a store entry: `latest` is
`price_history[-1] if price_history else {}`, and `.get` on the empty dict
yields `None` (main.py lines 332-343). -/
def priceRow (key : String) (s : PriceSeries) : PriceRow :=
  { key := key
    name := s.name
    packsize := s.packsize
    source := s.source
    current_price := match s.price_history.getLast? with
      | some o => o.selling_price
      | none => none
    mrp := match s.price_history.getLast? with
      | some o => o.mrp
      | none => none
    discount_pct := match s.price_history.getLast? with
      | some o => o.discount_pct
      | none => none
    last_updated := (s.price_history.getLast?).map PriceObservation.timestamp
    price_points := s.price_history.length }

/-- Python `if q and q.lower() not in text.lower(): continue`: an entry passes
when the filter is falsy (absent or empty) or is a case-insensitive substring. -/
def passesFilter (f : Option String) (text : String) : Bool :=
  match f with
  | none => true
  | some fs => if fs = "" then true else substrOf (lowerS fs) (lowerS text)

/-- Response of `GET /prices` (main.py lines 345-348). -/
structure PricesResponse where
  total : Nat
  results : List PriceRow
deriving DecidableEq, Repr

/-- The `get_prices` endpoint (main.py lines 317-348): iterate the store in
insertion order, apply the name and source substring filters, summarize each
series with its latest observation, and truncate to `limit` rows. -/
def get_prices (q source : Option String) (limit : Nat) (store : PriceStore) :
    PricesResponse :=
  let rows := store.filterMap (fun kv =>
    if passesFilter q kv.2.name && passesFilter source kv.2.source
    then some (priceRow kv.1 kv.2) else none)
  { total := rows.length, results := rows.take limit }

/-- Value of a hexadecimal digit, as accepted by `urllib.parse.unquote`. -/
def hexVal (c : Char) : Option Nat :=
  if '0' ≤ c ∧ c ≤ '9' then some (c.toNat - '0'.toNat)
  else if 'a' ≤ c ∧ c ≤ 'f' then some (c.toNat - 'a'.toNat + 10)
  else if 'A' ≤ c ∧ c ≤ 'F' then some (c.toNat - 'A'.toNat + 10)
  else none

/-- Percent-decoding as performed by `urllib.parse.unquote` (Python stdlib) on
ASCII escapes: `%hh` with two hex digits and value below 0x80 becomes that
character, a `%` not followed by two hex digits stays literal.  Escapes `0x80`
and above (which Python folds into a UTF-8 decode with replacement characters)
are left undecoded; no claim checked here exercises them. -/
def unquoteL : List Char → List Char
  | [] => []
  | [c] => [c]
  | [c1, c2] => [c1, c2]
  | c :: h1 :: h2 :: rest =>
    if c = '%' then
      match hexVal h1, hexVal h2 with
      | some a, some b =>
        if a * 16 + b < 128 then Char.ofNat (a * 16 + b) :: unquoteL rest
        else '%' :: h1 :: h2 :: unquoteL rest
      | _, _ => '%' :: unquoteL (h1 :: h2 :: rest)
    else c :: unquoteL (h1 :: h2 :: rest)

/-- String form of `urllib.parse.unquote`. -/
def unquoteS (s : String) : String := ⟨unquoteL s.data⟩

/-- The `get_price_history` endpoint (main.py lines 351-361): URL-decode the
key, then return the full series, or `none` (HTTP 404, "Product not tracked")
when the decoded key is absent. -/
def get_price_history (key : String) (store : PriceStore) : Option PriceSeries :=
  (unquoteS key |> store.lookup)

/-- Length of a last-`n` slice. -/
theorem length_takeLast (n : Nat) (l : List α) :
    (takeLast n l).length = min n l.length := by
  simp [takeLast]; omega

/-- A last-`n` slice never exceeds `n` elements. -/
theorem takeLast_length_le (n : Nat) (l : List α) : (takeLast n l).length ≤ n := by
  simp [takeLast]; omega

/-- Slicing the last `n` after appending to an already-sliced list is the same as
slicing the whole appended list: re-truncating after every append (as the ingest
loop does) loses nothing beyond the final window. -/
theorem takeLast_fuse (n : Nat) (l m : List α) :
    takeLast n (takeLast n l ++ m) = takeLast n (l ++ m) := by
  unfold takeLast
  rw [List.drop_append_eq_append_drop, List.drop_append_eq_append_drop,
    List.drop_drop]
  congr 1
  · congr 1
    simp only [List.length_append, List.length_drop]
    omega
  · congr 1
    simp only [List.length_append, List.length_drop]
    omega

/-- The last element survives a last-`n` slice (for positive `n`). -/
theorem getLast?_takeLast (n : Nat) (hn : 0 < n) (l : List α) :
    (takeLast n l).getLast? = l.getLast? := by
  rcases List.eq_nil_or_concat l with rfl | ⟨ys, a, rfl⟩
  · simp [takeLast]
  · simp only [List.concat_eq_append, takeLast, List.length_append,
      List.length_singleton]
    rw [List.drop_append_eq_append_drop]
    have h1 : ys.length + 1 - n - ys.length = 0 := by omega
    rw [h1]
    simp

/-- Looking up the key just stored finds the stored value. -/
theorem lookup_setStore_self (store : PriceStore) (k : String) (v : PriceSeries) :
    (setStore store k v).lookup k = some v := by
  induction store with
  | nil => simp [setStore, List.lookup]
  | cons kv rest ih =>
    obtain ⟨k', v'⟩ := kv
    by_cases h : k' = k
    · subst h; simp [setStore, List.lookup]
    · have hb : (k == k') = false := by
        simp only [beq_eq_false_iff_ne]
        exact fun e => h e.symm
      simp [setStore, h, List.lookup, hb, ih]

/-- Storing under one key leaves every other key's lookup unchanged. -/
theorem lookup_setStore_ne (store : PriceStore) (k k' : String) (v : PriceSeries)
    (h : k' ≠ k) : (setStore store k v).lookup k' = store.lookup k' := by
  have hkk : (k' == k) = false := by simp only [beq_eq_false_iff_ne]; exact h
  induction store with
  | nil => simp [setStore, List.lookup, hkk]
  | cons kv rest ih =>
    obtain ⟨a, b⟩ := kv
    by_cases ha : a = k
    · subst ha; simp [setStore, List.lookup, hkk]
    · cases hx : (k' == a) with
      | true => simp [setStore, ha, List.lookup, hx]
      | false => simp [setStore, ha, List.lookup, hx, ih]

/-- The price history currently stored under a key, if the key is tracked. -/
def histOpt (key : String) (store : PriceStore) : Option (List PriceObservation) :=
  (store.lookup key).map PriceSeries.price_history

/-- Effect of one iteration of the ingest loop on one key's history: the key the
product resolves to gains the observation (window re-applied), all others are
untouched. -/
theorem histOpt_ingestOne (src loc ts : String) (store : PriceStore)
    (p : IngestProduct) (key : String) :
    histOpt key (ingestOne src loc ts store p) =
      if seriesKey src p = key then
        some (takeLast 100 ((histOpt key store).getD [] ++ [mkObs p loc ts]))
      else histOpt key store := by
  by_cases hk : seriesKey src p = key
  · simp only [if_pos hk]
    subst hk
    unfold histOpt ingestOne
    rw [lookup_setStore_self]
    cases hs : store.lookup (seriesKey src p) with
    | none => simp [hs]
    | some s => simp [hs]
  · simp only [if_neg hk]
    unfold histOpt ingestOne
    rw [lookup_setStore_ne _ _ _ _ (fun e => hk e.symm)]

/-- Cumulative effect of ingesting a list of observations on one key's stored
history: nothing for an empty list, otherwise append and keep the last 100. -/
def extendHist : Option (List PriceObservation) → List PriceObservation →
    Option (List PriceObservation)
  | h, [] => h
  | none, os => some (takeLast 100 os)
  | some h, os => some (takeLast 100 (h ++ os))

theorem extendHist_step (h : Option (List PriceObservation)) (o : PriceObservation)
    (os : List PriceObservation) :
    extendHist (some (takeLast 100 (h.getD [] ++ [o]))) os = extendHist h (o :: os) := by
  cases os with
  | nil => cases h <;> simp [extendHist]
  | cons o2 os2 =>
    cases h with
    | none =>
      show some (takeLast 100 (takeLast 100 ([] ++ [o]) ++ (o2 :: os2))) = _
      rw [takeLast_fuse]
      simp [extendHist]
    | some hh =>
      show some (takeLast 100 (takeLast 100 (hh ++ [o]) ++ (o2 :: os2))) = _
      rw [takeLast_fuse]
      simp [extendHist]

theorem extendHist_append (h : Option (List PriceObservation))
    (os1 os2 : List PriceObservation) :
    extendHist (extendHist h os1) os2 = extendHist h (os1 ++ os2) := by
  induction os1 generalizing h with
  | nil => cases h <;> rfl
  | cons o os1 ih =>
    rw [← extendHist_step h o os1, ih, extendHist_step]
    rfl

/-- Folding the ingest loop over a product list updates each key's history by
exactly the observations whose products resolve to that key, in order. -/
theorem histOpt_foldl (src loc ts : String) (ps : List IngestProduct)
    (store : PriceStore) (key : String) :
    histOpt key (ps.foldl (ingestOne src loc ts) store) =
      extendHist (histOpt key store)
        ((ps.filter (fun p => seriesKey src p = key)).map (fun p => mkObs p loc ts)) := by
  induction ps generalizing store with
  | nil =>
    simp only [List.foldl_nil, List.filter_nil, List.map_nil]
    cases histOpt key store <;> rfl
  | cons p ps ih =>
    rw [List.foldl_cons, ih, histOpt_ingestOne]
    by_cases hk : seriesKey src p = key
    · rw [if_pos hk]
      have hd : decide (seriesKey src p = key) = true := decide_eq_true hk
      simp only [List.filter_cons, hd, if_true, List.map_cons]
      rw [extendHist_step]
    · rw [if_neg hk]
      have hd : decide (seriesKey src p = key) = false := decide_eq_false hk
      simp [List.filter_cons, hd]

/-- One ingest batch, expressed through `extendHist`. -/
theorem histOpt_ingest (d : IngestData) (ts : String) (store : PriceStore)
    (key : String) :
    histOpt key (ingest_prices d ts store).1 =
      extendHist (histOpt key store) (batchObsFor key d ts) := by
  simp only [ingest_prices, batchObsFor]
  exact histOpt_foldl _ _ _ _ _ _

/-- A whole sequence of ingest batches, expressed through `extendHist`. -/
theorem histOpt_processBatches (batches : List (IngestData × String))
    (store : PriceStore) (key : String) :
    histOpt key (processBatches batches store) =
      extendHist (histOpt key store) (allObsFor key batches) := by
  induction batches generalizing store with
  | nil => simp [processBatches, allObsFor, extendHist]
  | cons b rest ih =>
    obtain ⟨d, ts⟩ := b
    show histOpt key (processBatches rest (ingest_prices d ts store).1) = _
    rw [ih, histOpt_ingest, extendHist_append]
    rfl

instance : Inhabited PriceSeries :=
  ⟨{ name := "", packsize := none, source := "", price_history := [] }⟩

/-- Any history produced by `extendHist` from a ≤100-bounded start is ≤100. -/
theorem extendHist_some_le (h : Option (List PriceObservation))
    (os l : List PriceObservation)
    (hh : ∀ l0, h = some l0 → l0.length ≤ 100)
    (he : extendHist h os = some l) : l.length ≤ 100 := by
  cases os with
  | nil =>
    cases h with
    | none => exact absurd he (by simp [extendHist])
    | some h0 =>
      have he' : h0 = l := by simpa [extendHist] using he
      exact he' ▸ hh h0 rfl
  | cons o os =>
    cases h with
    | none =>
      have he' : l = takeLast 100 (o :: os) := by
        have := he
        simp only [extendHist] at this
        exact (Option.some.injEq _ _ ▸ this).symm
      rw [he']
      exact takeLast_length_le _ _
    | some h0 =>
      have he' : l = takeLast 100 (h0 ++ o :: os) := by
        have := he
        simp only [extendHist] at this
        exact (Option.some.injEq _ _ ▸ this).symm
      rw [he']
      exact takeLast_length_le _ _

/-- C1: starting from the empty store, once a series key has accumulated 150
observations across any number of ingest batches, its stored `price_history` is
exactly the 51st through 150th observation in ingestion order (the oldest 50
evicted, FIFO); and, over any store whose series all hold at most 100
observations, an ingest leaves every series with at most 100 observations. -/
theorem c1_retention_window :
    (∀ (batches : List (IngestData × String)) (key : String),
      (allObsFor key batches).length = 150 →
      histOpt key (processBatches batches ([] : PriceStore)) =
        some ((allObsFor key batches).drop 50)) ∧
    (∀ (store : PriceStore) (d : IngestData) (ts : String),
      (∀ k s, store.lookup k = some s → s.price_history.length ≤ 100) →
      ∀ k s, (ingest_prices d ts store).1.lookup k = some s →
        s.price_history.length ≤ 100) := by
  constructor
  · intro batches key h150
    rw [histOpt_processBatches]
    have hnil : histOpt key ([] : PriceStore) = none := rfl
    rw [hnil]
    cases hobs : allObsFor key batches with
    | nil => rw [hobs] at h150; simp at h150
    | cons o os =>
      show some (takeLast 100 (o :: os)) = _
      unfold takeLast
      rw [hobs] at h150
      rw [h150]
  · intro store d ts hinv k s hlk
    have hh : histOpt k (ingest_prices d ts store).1 = some s.price_history := by
      simp [histOpt, hlk]
    rw [histOpt_ingest] at hh
    refine extendHist_some_le _ _ _ ?_ hh
    intro l0 hl0
    simp only [histOpt, Option.map_eq_some'] at hl0
    obtain ⟨s0, hs0, hs0h⟩ := hl0
    exact hs0h ▸ hinv k s0 hs0

/-- Concrete 150-product batch used to exercise `c1_retention_window`. -/
def c1wProducts : List IngestProduct :=
  (List.range 150).map (fun i =>
    { name := "Amul Butter", packsize := some "500 g", mrp := some ((i : ℚ) + 1),
      selling_price := some (i : ℚ), discount_pct := none, variant_id := some "v1" })

def c1wBatch : IngestData :=
  { products := c1wProducts, source := some "zepto", location := some "Bengaluru" }

def c1wBatches : List (IngestData × String) := [(c1wBatch, "2024-01-01T00:00:00")]

def c1wSeries : PriceSeries :=
  ((ingest_prices c1wBatch "t0" ([] : PriceStore)).1.lookup "zepto:v1").getD default

set_option maxRecDepth 40000 in
theorem c1_retention_window_witness :
    (allObsFor "zepto:v1" c1wBatches).length = 150 ∧
    histOpt "zepto:v1" (processBatches c1wBatches ([] : PriceStore)) =
      some ((allObsFor "zepto:v1" c1wBatches).drop 50) ∧
    (∀ k s, ([] : PriceStore).lookup k = some s → s.price_history.length ≤ 100) ∧
    (ingest_prices c1wBatch "t0" ([] : PriceStore)).1.lookup "zepto:v1" =
      some c1wSeries ∧
    c1wSeries.price_history.length ≤ 100 := by
  have h150 : (allObsFor "zepto:v1" c1wBatches).length = 150 := by rfl
  have hempty : ∀ k s, ([] : PriceStore).lookup k = some s →
      s.price_history.length ≤ 100 := by
    intro k s hs
    simp [List.lookup] at hs
  have hlk : (ingest_prices c1wBatch "t0" ([] : PriceStore)).1.lookup "zepto:v1" =
      some c1wSeries := by rfl
  exact ⟨h150, c1_retention_window.1 c1wBatches "zepto:v1" h150, hempty, hlk,
    c1_retention_window.2 ([] : PriceStore) c1wBatch "t0" hempty "zepto:v1"
      c1wSeries hlk⟩

/-- A loop iteration for a product resolving to a different key does not touch
that key's entry at all. -/
theorem lookup_ingestOne_ne (src loc ts : String) (store : PriceStore)
    (p : IngestProduct) (key : String) (hk : seriesKey src p ≠ key) :
    (ingestOne src loc ts store p).lookup key = store.lookup key := by
  unfold ingestOne
  exact lookup_setStore_ne _ _ _ _ (fun e => hk e.symm)

/-- A loop iteration keeps the metadata (name, packsize, source) of every key
that already has a series. -/
theorem ingestOne_meta (src loc ts : String) (store : PriceStore)
    (p : IngestProduct) (key : String) (s : PriceSeries)
    (h1 : store.lookup key = some s) :
    ∃ s', (ingestOne src loc ts store p).lookup key = some s' ∧
      s'.name = s.name ∧ s'.packsize = s.packsize ∧ s'.source = s.source := by
  by_cases hk : seriesKey src p = key
  · subst hk
    refine ⟨{ s with price_history := takeLast 100 (s.price_history ++ [mkObs p loc ts]) }, ?_, rfl, rfl, rfl⟩
    unfold ingestOne
    simp only [h1]
    exact lookup_setStore_self _ _ _
  · refine ⟨s, ?_, rfl, rfl, rfl⟩
    rw [lookup_ingestOne_ne _ _ _ _ _ _ hk]
    exact h1

/-- Metadata preservation extends through the whole product loop. -/
theorem foldl_meta (src loc ts : String) (ps : List IngestProduct)
    (store : PriceStore) (key : String) (s : PriceSeries)
    (h1 : store.lookup key = some s) :
    ∃ s', (ps.foldl (ingestOne src loc ts) store).lookup key = some s' ∧
      s'.name = s.name ∧ s'.packsize = s.packsize ∧ s'.source = s.source := by
  induction ps generalizing store s with
  | nil => exact ⟨s, h1, rfl, rfl, rfl⟩
  | cons p ps ih =>
    obtain ⟨s1, hs1, hn, hp, hsrc⟩ := ingestOne_meta src loc ts store p key s h1
    obtain ⟨s2, hs2, hn2, hp2, hsrc2⟩ := ih _ s1 hs1
    exact ⟨s2, hs2, hn2.trans hn, hp2.trans hp, hsrc2.trans hsrc⟩

/-- Keys receiving no observation in the loop keep their entry verbatim. -/
theorem foldl_untouched (src loc ts : String) (ps : List IngestProduct)
    (store : PriceStore) (key : String)
    (hf : ps.filter (fun p => seriesKey src p = key) = []) :
    (ps.foldl (ingestOne src loc ts) store).lookup key = store.lookup key := by
  revert hf
  induction ps generalizing store with
  | nil => intro _; rfl
  | cons p ps ih =>
    intro hf
    rw [List.filter_cons] at hf
    by_cases hp : seriesKey src p = key
    · rw [if_pos (decide_eq_true hp)] at hf
      exact absurd hf (List.cons_ne_nil _ _)
    · rw [if_neg (by simp [hp])] at hf
      rw [List.foldl_cons, ih _ hf]
      exact lookup_ingestOne_ne _ _ _ _ _ _ hp

/-- C9: re-ingesting for an already-tracked series key never changes that
series' `name`, `packsize` or `source` (they are fixed when the series is
created from the first observation) — only `price_history` can change; and a
batch containing no observation for some key leaves that key's entry (present
or absent) exactly as it was. -/
theorem c9_ingest_frame :
    (∀ (d : IngestData) (ts : String) (store : PriceStore) (key : String)
        (s : PriceSeries),
      store.lookup key = some s →
      ∃ s', (ingest_prices d ts store).1.lookup key = some s' ∧
        s'.name = s.name ∧ s'.packsize = s.packsize ∧ s'.source = s.source) ∧
    (∀ (d : IngestData) (ts : String) (store : PriceStore) (key : String),
      batchObsFor key d ts = [] →
      (ingest_prices d ts store).1.lookup key = store.lookup key) := by
  constructor
  · intro d ts store key s h1
    exact foldl_meta _ _ _ _ _ _ _ h1
  · intro d ts store key hb
    have hf : d.products.filter
        (fun p => seriesKey (d.source.getD "unknown") p = key) = [] := by
      by_contra hne
      cases hc : d.products.filter
          (fun p => seriesKey (d.source.getD "unknown") p = key) with
      | nil => exact hne hc
      | cons a l =>
        have : batchObsFor key d ts ≠ [] := by
          unfold batchObsFor
          rw [hc]
          simp
        exact this hb
    exact foldl_untouched _ _ _ _ _ _ hf

/-- Concrete data exercising `c9_ingest_frame`: a second batch re-ingests the
same variant under a different display name, and is silent about key
"zepto:other". -/
def c9wProd1 : IngestProduct :=
  { name := "Tata Salt"
    packsize := some "1 kg"
    mrp := some 30
    selling_price := some 28
    discount_pct := some 6
    variant_id := some "va" }

def c9wProd2 : IngestProduct :=
  { name := "Tata Salt Iodised"
    packsize := some "1 kg x 1"
    mrp := some 32
    selling_price := some 30
    discount_pct := some 6
    variant_id := some "va" }

def c9wBatch1 : IngestData :=
  { products := [c9wProd1], source := some "zepto", location := some "Bengaluru" }

def c9wBatch2 : IngestData :=
  { products := [c9wProd2], source := some "zepto", location := some "Mumbai" }

def c9wStore : PriceStore := (ingest_prices c9wBatch1 "t1" ([] : PriceStore)).1

def c9wSeries : PriceSeries := (c9wStore.lookup "zepto:va").getD default

theorem c9_ingest_frame_witness :
    c9wStore.lookup "zepto:va" = some c9wSeries ∧
    (∃ s', (ingest_prices c9wBatch2 "t2" c9wStore).1.lookup "zepto:va" = some s' ∧
      s'.name = c9wSeries.name ∧ s'.packsize = c9wSeries.packsize ∧
      s'.source = c9wSeries.source) ∧
    batchObsFor "zepto:other" c9wBatch2 "t2" = [] ∧
    (ingest_prices c9wBatch2 "t2" c9wStore).1.lookup "zepto:other" =
      c9wStore.lookup "zepto:other" := by
  have h1 : c9wStore.lookup "zepto:va" = some c9wSeries := by rfl
  have h2 : batchObsFor "zepto:other" c9wBatch2 "t2" = [] := by rfl
  exact ⟨h1, c9_ingest_frame.1 c9wBatch2 "t2" c9wStore "zepto:va" c9wSeries h1,
    h2, c9_ingest_frame.2 c9wBatch2 "t2" c9wStore "zepto:other" h2⟩

/-- Keys of the store, in insertion order. -/
def storeKeys (store : PriceStore) : List String := store.map Prod.fst

theorem storeKeys_setStore (store : PriceStore) (k : String) (v : PriceSeries) :
    storeKeys (setStore store k v) =
      if k ∈ storeKeys store then storeKeys store else storeKeys store ++ [k] := by
  induction store with
  | nil => simp [setStore, storeKeys]
  | cons kv rest ih =>
    obtain ⟨a, b⟩ := kv
    by_cases ha : a = k
    · subst ha
      simp [setStore, storeKeys]
    · simp only [setStore, if_neg ha, storeKeys, List.map_cons] at ih ⊢
      rw [ih]
      have hka : ¬ (k = a) := fun e => ha e.symm
      by_cases hm : k ∈ rest.map Prod.fst
      · rw [if_pos hm, if_pos (List.mem_cons_of_mem a hm)]
      · rw [if_neg hm, if_neg (by simp [List.mem_cons, hka, hm])]
        simp

/-- Store updates preserve key uniqueness. -/
theorem nodup_setStore (store : PriceStore) (k : String) (v : PriceSeries)
    (h : (storeKeys store).Nodup) : (storeKeys (setStore store k v)).Nodup := by
  rw [storeKeys_setStore]
  by_cases hm : k ∈ storeKeys store
  · simpa [hm] using h
  · simp only [if_neg hm]
    simp [List.nodup_append, h, hm]

theorem nodup_ingestOne (src loc ts : String) (store : PriceStore)
    (p : IngestProduct) (h : (storeKeys store).Nodup) :
    (storeKeys (ingestOne src loc ts store p)).Nodup := by
  unfold ingestOne
  exact nodup_setStore _ _ _ h

theorem nodup_foldl (src loc ts : String) (ps : List IngestProduct)
    (store : PriceStore) (h : (storeKeys store).Nodup) :
    (storeKeys (ps.foldl (ingestOne src loc ts) store)).Nodup := by
  induction ps generalizing store with
  | nil => exact h
  | cons p ps ih => exact ih _ (nodup_ingestOne _ _ _ _ _ h)

theorem nodup_processBatches (batches : List (IngestData × String))
    (store : PriceStore) (h : (storeKeys store).Nodup) :
    (storeKeys (processBatches batches store)).Nodup := by
  induction batches generalizing store with
  | nil => exact h
  | cons b rest ih =>
    obtain ⟨d, ts⟩ := b
    exact ih _ (nodup_foldl _ _ _ _ _ h)

/-- In a store with unique keys, list membership and dict lookup agree. -/
theorem lookup_of_mem_nodup (store : PriceStore) (k : String) (s : PriceSeries)
    (h : (storeKeys store).Nodup) (hm : (k, s) ∈ store) :
    store.lookup k = some s := by
  induction store with
  | nil => exact absurd hm (List.not_mem_nil _)
  | cons kv rest ih =>
    obtain ⟨a, b⟩ := kv
    rcases List.mem_cons.mp hm with he | hr
    · rw [Prod.mk.injEq] at he
      obtain ⟨rfl, rfl⟩ := he
      simp [List.lookup]
    · have hne : (k == a) = false := by
        have hk : k ∈ storeKeys rest := by
          simpa [storeKeys] using List.mem_map_of_mem Prod.fst hr
        have ha : a ∉ storeKeys rest := by
          have := h
          simp only [storeKeys, List.map_cons, List.nodup_cons] at this
          exact this.1
        simp only [beq_eq_false_iff_ne]
        exact fun e => ha (e ▸ hk)
      have hnd : (storeKeys rest).Nodup := by
        have := h
        simp only [storeKeys, List.map_cons, List.nodup_cons] at this
        exact this.2
      simp [List.lookup, hne, ih hnd hr]

/-- C2: in any store built by ingest batches from the empty store, every row
returned by `get_prices` (under any name/source filters and limit — in
particular a query filtered to the source of the batch just ingested) reports as
`current_price` exactly the `selling_price` of the most recently ingested
observation for that row's series key. -/
theorem c2_query_reports_latest :
    ∀ (batches : List (IngestData × String)) (q src : Option String) (limit : Nat)
      (r : PriceRow),
      r ∈ (get_prices q src limit (processBatches batches ([] : PriceStore))).results →
      ∃ o, (allObsFor r.key batches).getLast? = some o ∧
        r.current_price = o.selling_price := by
  intro batches q src limit r hr
  have hr1 : r ∈ (processBatches batches ([] : PriceStore)).filterMap (fun kv =>
      if passesFilter q kv.2.name && passesFilter src kv.2.source
      then some (priceRow kv.1 kv.2) else none) := List.mem_of_mem_take hr
  obtain ⟨kv, hkv, hf⟩ := List.mem_filterMap.mp hr1
  have hpr : priceRow kv.1 kv.2 = r := by
    by_cases hc : passesFilter q kv.2.name && passesFilter src kv.2.source
    · rw [if_pos hc] at hf; exact Option.some.inj hf
    · rw [if_neg hc] at hf; exact absurd hf (Option.noConfusion)
  have hnd : (storeKeys (processBatches batches ([] : PriceStore))).Nodup :=
    nodup_processBatches _ _ (by simp [storeKeys])
  have hlk : (processBatches batches ([] : PriceStore)).lookup kv.1 = some kv.2 :=
    lookup_of_mem_nodup _ _ _ hnd hkv
  have hh : histOpt kv.1 (processBatches batches ([] : PriceStore)) =
      some kv.2.price_history := by simp [histOpt, hlk]
  rw [histOpt_processBatches] at hh
  have hnil : histOpt kv.1 ([] : PriceStore) = none := rfl
  rw [hnil] at hh
  have hkeq : r.key = kv.1 := by rw [← hpr]; rfl
  cases hobs : allObsFor kv.1 batches with
  | nil =>
    rw [hobs] at hh
    exact absurd hh (by simp [extendHist])
  | cons o os =>
    rw [hobs] at hh
    have hh2 : kv.2.price_history = takeLast 100 (o :: os) := by
      have : some (takeLast 100 (o :: os)) = some kv.2.price_history := hh
      exact (Option.some.inj this).symm
    have hex : ∃ ol, (o :: os).getLast? = some ol := by
      cases hgl : (o :: os).getLast? with
      | none => exact absurd (List.getLast?_eq_none_iff.mp hgl) (List.cons_ne_nil o os)
      | some ol => exact ⟨ol, rfl⟩
    obtain ⟨ol, hol⟩ := hex
    refine ⟨ol, ?_, ?_⟩
    · rw [hkeq, hobs, hol]
    · rw [← hpr]
      show (match kv.2.price_history.getLast? with
        | some o => o.selling_price
        | none => none) = ol.selling_price
      rw [hh2, getLast?_takeLast 100 (by norm_num), hol]

/-- Concrete batch and query exercising `c2_query_reports_latest`. -/
def c2wProd : IngestProduct :=
  { name := "Maggi Noodles"
    packsize := some "280 g"
    mrp := some 60
    selling_price := some 54
    discount_pct := some 10
    variant_id := some "vm" }

def c2wBatch : IngestData :=
  { products := [c2wProd], source := some "zepto", location := some "Bengaluru" }

def c2wBatches : List (IngestData × String) := [(c2wBatch, "t1")]

def c2wRow : PriceRow :=
  ((get_prices none (some "zepto") 50
    (processBatches c2wBatches ([] : PriceStore))).results.head?).getD
    { key := "", name := "", packsize := none, source := "", current_price := none,
      mrp := none, discount_pct := none, last_updated := none, price_points := 0 }

theorem c2_query_reports_latest_witness :
    c2wRow ∈ (get_prices none (some "zepto") 50
      (processBatches c2wBatches ([] : PriceStore))).results ∧
    ∃ o, (allObsFor c2wRow.key c2wBatches).getLast? = some o ∧
      c2wRow.current_price = o.selling_price := by
  have hm : c2wRow ∈ (get_prices none (some "zepto") 50
      (processBatches c2wBatches ([] : PriceStore))).results := by decide
  exact ⟨hm, c2_query_reports_latest c2wBatches none (some "zepto") 50 c2wRow hm⟩

/-- Percent-decoding is the identity on percent-free text. -/
theorem unquoteL_of_no_percent (l : List Char) (h : '%' ∉ l) : unquoteL l = l := by
  have main : ∀ (n : Nat) (l : List Char), l.length ≤ n → '%' ∉ l → unquoteL l = l := by
    intro n
    induction n with
    | zero =>
      intro l hl _
      rw [List.length_eq_zero.mp (Nat.le_zero.mp hl)]
      rfl
    | succ n ih =>
      intro l hl hp
      cases l with
      | nil => rfl
      | cons c rest =>
        have hc : ¬ (c = '%') := fun e => hp (e ▸ List.mem_cons_self c rest)
        cases rest with
        | nil => rfl
        | cons h1 rest1 =>
          cases rest1 with
          | nil => rfl
          | cons h2 rest2 =>
            have hred : unquoteL (c :: h1 :: h2 :: rest2) =
                c :: unquoteL (h1 :: h2 :: rest2) := by
              simp [unquoteL, hc]
            rw [hred, ih (h1 :: h2 :: rest2)
              (by simp only [List.length_cons] at hl ⊢; omega)
              (fun hm => hp (List.mem_cons_of_mem c hm))]
  exact main l.length l (Nat.le_refl _) h

/-- C3 (amended): `get_price_history` applies URL percent-decoding to its key
before the store lookup.  For every key free of percent characters (where
decoding is the identity) the original claim holds: the endpoint returns 404
NotFound exactly when the key is untracked, and returns the full stored series
(never an empty substitute) for every tracked key. -/
theorem c3_history_notfound :
    ∀ (store : PriceStore) (key : String),
      ('%' ∉ key.data) →
      (get_price_history key store = none ↔ store.lookup key = none) ∧
      (∀ s, store.lookup key = some s → get_price_history key store = some s) := by
  intro store key hp
  have hu : unquoteS key = key := by
    obtain ⟨d⟩ := key
    show String.mk (unquoteL d) = String.mk d
    rw [unquoteL_of_no_percent d hp]
  constructor
  · unfold get_price_history
    rw [hu]
  · intro s hs
    unfold get_price_history
    rw [hu]
    exact hs

/-- Concrete store for the C3 counterexample and witness: one batch tracks the
series key "zepto:x". -/
def c3wProd : IngestProduct :=
  { name := "x"
    packsize := none
    mrp := some 10
    selling_price := some 9
    discount_pct := none
    variant_id := none }

def c3wBatch : IngestData :=
  { products := [c3wProd], source := some "zepto", location := none }

def c3wStore : PriceStore := (ingest_prices c3wBatch "t1" ([] : PriceStore)).1

def c3wSeries : PriceSeries := (c3wStore.lookup "zepto:x").getD default

/-- C3 counterexample: the key "%7Aepto:x" is not present in the store, yet
`get_price_history` does not fail with NotFound — it URL-decodes the key to
"zepto:x" and returns that series.  This refutes the claim as stated ("for
every key not present in the price store, getHistory fails with NotFound"). -/
theorem c3_counterexample :
    c3wStore.lookup "%7Aepto:x" = none ∧
    get_price_history "%7Aepto:x" c3wStore = some c3wSeries := by
  constructor
  · rfl
  · rfl

theorem c3_history_notfound_witness :
    ('%' ∉ "zepto:x".data) ∧
    (get_price_history "zepto:x" c3wStore = none ↔
      c3wStore.lookup "zepto:x" = none) ∧
    c3wStore.lookup "zepto:x" = some c3wSeries ∧
    get_price_history "zepto:x" c3wStore = some c3wSeries := by
  have hp : '%' ∉ "zepto:x".data := by decide
  have hs : c3wStore.lookup "zepto:x" = some c3wSeries := by rfl
  exact ⟨hp, (c3_history_notfound c3wStore "zepto:x" hp).1, hs,
    (c3_history_notfound c3wStore "zepto:x" hp).2 c3wSeries hs⟩

/-- Inclusion keyword list (filter_food_products.py lines 12-78), verbatim and in order. -/
def FOOD_KEYWORDS : List String :=
  ["atta", "flour", "rice", "wheat", "dal", "pulse", "lentil", "chana",
   "moong", "toor", "urad", "masoor", "rajma", "chole", "besan", "sooji",
   "maida", "poha", "oats", "muesli", "cereal", "cornflakes", "millet",
   "ragi", "jowar", "bajra", "oil", "ghee", "butter", "margarine",
   "vanaspati", "milk", "curd", "yogurt", "yoghurt", "paneer", "cheese",
   "cream", "lassi", "buttermilk", "chaach", "khoa", "mawa", "shrikhand",
   "bread", "pav", "bun", "cake", "pastry", "cookie", "biscuit", "rusk",
   "khari", "toast", "croissant", "muffin", "donut", "brownie", "fruit",
   "vegetable", "sabji", "sabzi", "apple", "banana", "orange", "mango",
   "grape", "pomegranate", "papaya", "guava", "watermelon", "pineapple",
   "kiwi", "tomato", "potato", "onion", "carrot", "cabbage", "cauliflower",
   "spinach", "palak", "methi", "bhindi", "brinjal", "capsicum", "cucumber",
   "beans", "peas", "corn", "mushroom", "ginger", "garlic", "lemon",
   "coconut", "chicken", "mutton", "lamb", "fish", "prawns", "shrimp", "egg",
   "meat", "sausage", "salami", "bacon", "ham", "kebab", "tikka", "seekh",
   "masala", "spice", "turmeric", "haldi", "chilli", "mirch", "pepper",
   "cumin", "jeera", "coriander", "dhania", "cardamom", "elaichi", "clove",
   "cinnamon", "dalchini", "garam masala", "biryani masala", "curry",
   "almond", "badam", "cashew", "kaju", "walnut", "akhrot", "pistachio",
   "pista", "raisin", "kishmish", "dates", "khajoor", "fig", "anjeer",
   "peanut", "groundnut", "chips", "namkeen", "bhujia", "mixture", "chakli",
   "murukku", "mathri", "papad", "fryums", "kurkure", "nachos", "popcorn",
   "makhana", "chocolate", "candy", "toffee", "mithai", "sweet", "ladoo",
   "barfi", "halwa", "jalebi", "gulab jamun", "rasgulla", "sandesh", "peda",
   "tea", "chai", "coffee", "juice", "drink", "soda", "cola", "lemonade",
   "squash", "sharbat", "coconut water", "energy drink", "health drink",
   "noodles", "pasta", "maggi", "macaroni", "soup", "sauce", "ketchup",
   "mayonnaise", "pickle", "achar", "chutney", "jam", "honey", "spread",
   "ready to eat", "ready to cook", "instant", "frozen", "paratha", "roti",
   "samosa", "spring roll", "momos", "pizza", "burger", "salt", "sugar",
   "jaggery", "gur", "vinegar", "soy sauce", "mustard", "baby food",
   "cerelac", "formula", "protein", "whey", "supplement", "nutrition",
   "diet", "organic", "gluten free", "ice cream", "kulfi", "frozen dessert",
   "gelato", "sorbet"]

/-- Exclusion keyword list (filter_food_products.py lines 81-100), verbatim and in order. -/
def EXCLUDE_KEYWORDS : List String :=
  ["shirt", "pant", "jeans", "dress", "saree", "kurti", "top", "bottom",
   "shoe", "sandal", "slipper", "footwear", "sneaker", "phone", "mobile",
   "laptop", "tablet", "charger", "cable", "earphone", "headphone",
   "speaker", "camera", "watch", "smartwatch", "poster", "frame", "decor",
   "curtain", "bedsheet", "pillow", "mattress", "toy", "game", "puzzle",
   "doll", "car", "bike", "cosmetic", "makeup", "lipstick", "foundation",
   "mascara", "eyeliner", "shampoo", "conditioner", "soap", "body wash",
   "face wash", "cream", "lotion", "serum", "sunscreen", "deodorant",
   "perfume", "fragrance", "diaper", "wipes", "sanitary", "pad", "tampon",
   "detergent", "cleaner", "dishwash", "mop", "broom", "bucket", "medicine",
   "tablet", "capsule", "syrup", "ointment", "bandage", "legging", "shorts",
   "trackpants", "hoodie", "sweatshirt", "jacket", "t-shirt", "tshirt",
   "polo", "innerwear", "underwear", "bra", "brief", "jewellery", "jewelry",
   "necklace", "earring", "bracelet", "ring", "bag", "backpack", "handbag",
   "wallet", "purse", "luggage", "book", "notebook", "pen", "pencil",
   "stationery", "office", "iphone", "samsung", "case", "cover", "protector",
   "tempered"]

/-- Input to the classifier: a product dict; `.get('name', '')` defaults absent
fields to the empty string (filter_food_products.py lines 104-105). -/
structure FilterProduct where
  name : Option String
  slug : Option String
deriving DecidableEq, Repr

/-- The classification text `f"{name} {slug}"` built from the lowercased name
and slug (filter_food_products.py lines 104-106). -/
def foodText (p : FilterProduct) : String :=
  lowerS (p.name.getD "") ++ " " ++ lowerS (p.slug.getD "")

/-- The classifier `is_food_product` (filter_food_products.py lines 102-118):
any exclusion-keyword substring hit returns `False` immediately; otherwise any
inclusion-keyword substring hit returns `True`; otherwise `False`. -/
def is_food_product (p : FilterProduct) : Bool :=
  let text := foodText p
  if EXCLUDE_KEYWORDS.any (fun kw => substrOf kw text) then false
  else if FOOD_KEYWORDS.any (fun kw => substrOf kw text) then true
  else false

/-- C4: the exclusion list always wins — whenever any exclusion keyword occurs
(case-insensitively, i.e. in the lowercased name-plus-slug text) the product is
classified non-food no matter how many inclusion keywords also occur; a text
matching neither list is also non-food; in particular a product whose text
contains both "rice" (inclusion) and "tempered" (exclusion) is non-food. -/
theorem c4_exclusion_wins :
    (∀ p : FilterProduct,
      EXCLUDE_KEYWORDS.any (fun kw => substrOf kw (foodText p)) = true →
      is_food_product p = false) ∧
    (∀ p : FilterProduct,
      (EXCLUDE_KEYWORDS ++ FOOD_KEYWORDS).any
        (fun kw => substrOf kw (foodText p)) = false →
      is_food_product p = false) ∧
    is_food_product { name := some "Tempered Rice", slug := some "tempered-rice" }
      = false := by
  refine ⟨?_, ?_, ?_⟩
  · intro p h
    simp only [is_food_product, h]
    rfl
  · intro p h
    rw [List.any_append] at h
    have h1 : EXCLUDE_KEYWORDS.any (fun kw => substrOf kw (foodText p)) = false :=
      by cases hx : EXCLUDE_KEYWORDS.any (fun kw => substrOf kw (foodText p)) <;>
        simp [hx] at h ⊢
    have h2 : FOOD_KEYWORDS.any (fun kw => substrOf kw (foodText p)) = false :=
      by cases hx : FOOD_KEYWORDS.any (fun kw => substrOf kw (foodText p)) <;>
        simp [hx] at h ⊢
    simp [is_food_product, h1, h2]
  · decide

def c4wBoth : FilterProduct :=
  { name := some "Tempered Rice", slug := some "tempered-rice" }

def c4wNeither : FilterProduct :=
  { name := some "Xyzzy Widget", slug := some "xyzzy-widget" }

set_option maxRecDepth 100000 in
theorem c4_exclusion_wins_witness :
    (EXCLUDE_KEYWORDS.any (fun kw => substrOf kw (foodText c4wBoth)) = true ∧
      is_food_product c4wBoth = false) ∧
    ((EXCLUDE_KEYWORDS ++ FOOD_KEYWORDS).any
        (fun kw => substrOf kw (foodText c4wNeither)) = false ∧
      is_food_product c4wNeither = false) := by
  have h1 : EXCLUDE_KEYWORDS.any (fun kw => substrOf kw (foodText c4wBoth)) =
      true := by decide
  have h2 : (EXCLUDE_KEYWORDS ++ FOOD_KEYWORDS).any
      (fun kw => substrOf kw (foodText c4wNeither)) = false := by decide
  exact ⟨⟨h1, c4_exclusion_wins.1 c4wBoth h1⟩,
    ⟨h2, c4_exclusion_wins.2.1 c4wNeither h2⟩⟩

deriving instance DecidableEq for Except

/-- Python regex `\s` on ASCII text. -/
def isPySpace (c : Char) : Bool :=
  c = ' ' || c = '\t' || c = '\n' || c = '\r' || c = '\x0B' || c = '\x0C'

/-- Digit run to a natural number. -/
def natOfDigits (l : List Char) : Nat :=
  l.foldl (fun acc c => acc * 10 + (c.toNat - '0'.toNat)) 0

/-- Python `float()` on a string drawn from `[\d.]+`: defined (one optional dot,
at least one digit) gives the exact decimal value; anything else (e.g. "1.2.3"
or ".") raises ValueError, modelled as `none`.  The source computes in IEEE
doubles; the claims checked here only involve exactly representable values. -/
def pyFloatQ (l : List Char) : Option ℚ :=
  if l.all Char.isDigit then
    if l.isEmpty then none else some (natOfDigits l : ℚ)
  else
    let a := l.takeWhile (fun c => c ≠ '.')
    let b := (l.drop (a.length + 1))
    if a.all Char.isDigit ∧ b.all Char.isDigit ∧ a ++ '.' :: b = l ∧
        ¬(a.isEmpty ∧ b.isEmpty) then
      some ((natOfDigits a : ℚ) + (natOfDigits b : ℚ) / ((10 : ℚ) ^ b.length))
    else none

/-- Unit alternation of the weight regex in `parse_weight_grams`
(main.py line 213), in source order: the first alternative that matches at the
position wins. -/
def weightUnits : List String := ["kg", "g", "gm", "gram", "ml", "l", "litre"]

/-- Anchored match of `([\d.]+)\s*(kg|g|gm|gram|ml|l|litre)` at the start of the
text (Python `re.match`), returning the numeric capture and the unit capture.
All quantifiers here are effectively deterministic: shrinking `[\d.]+` or `\s*`
leaves the next character a digit, dot or space, which no unit alternative can
start with. -/
def weightMatch (l : List Char) : Option (List Char × List Char) :=
  let num := l.takeWhile (fun c => c.isDigit || c = '.')
  if num.isEmpty then none
  else
    let r1 := (l.drop num.length).dropWhile isPySpace
    match weightUnits.find? (fun u => u.data.isPrefixOf r1) with
    | some u => some (num, u.data)
    | none => none

/-- The weight normalizer `parse_weight_grams` (main.py lines 209-222): `None`
(modelled `Except.ok none`) for falsy input or when the pattern does not match;
grams otherwise, with kg and l/litre scaled by 1000; `float()` failures (several
dots) raise, modelled as `Except.error`. -/
def parse_weight_grams (w : Option String) : Except Unit (Option ℚ) :=
  match w with
  | none => Except.ok none
  | some s =>
    if s = "" then Except.ok none
    else
      match weightMatch (lowerL s.data) with
      | none => Except.ok none
      | some (num, u) =>
        match pyFloatQ num with
        | none => Except.error ()
        | some v =>
          if u = "kg".data then Except.ok (some (v * 1000))
          else if u = "l".data ∨ u = "litre".data then Except.ok (some (v * 1000))
          else Except.ok (some v)

/-- C8: the weight normalizer maps "1 kg" to 1000 grams, "250 g" to 250,
"1 L" to 1000 (liquid volume treated as mass-equivalent), the empty string to
the distinguished unrecognized result `None` (not zero), and yields `None`
whenever the leading number-plus-unit pattern fails to match. -/
theorem c8_normalize_weight :
    parse_weight_grams (some "1 kg") = Except.ok (some 1000) ∧
    parse_weight_grams (some "250 g") = Except.ok (some 250) ∧
    parse_weight_grams (some "1 L") = Except.ok (some 1000) ∧
    parse_weight_grams (some "") = Except.ok none ∧
    parse_weight_grams none = Except.ok none ∧
    (∀ s : String, s ≠ "" → weightMatch (lowerL s.data) = none →
      parse_weight_grams (some s) = Except.ok none) := by
  refine ⟨?_, ?_, ?_, by rfl, rfl, ?_⟩
  · have hn : natOfDigits ['1'] = 1 := by decide
    show Except.ok (some ((natOfDigits ['1'] : ℚ) * 1000)) = Except.ok (some 1000)
    rw [hn]; norm_num
  · have hn : natOfDigits ['2', '5', '0'] = 250 := by decide
    show Except.ok (some ((natOfDigits ['2', '5', '0'] : ℕ) : ℚ)) =
      Except.ok (some 250)
    rw [hn]; norm_num
  · have hn : natOfDigits ['1'] = 1 := by decide
    show Except.ok (some ((natOfDigits ['1'] : ℚ) * 1000)) = Except.ok (some 1000)
    rw [hn]; norm_num
  · intro s h1 h2
    simp [parse_weight_grams, h1, h2]

theorem c8_normalize_weight_witness :
    ("about one kilo" ≠ "") ∧
    weightMatch (lowerL "about one kilo".data) = none ∧
    parse_weight_grams (some "about one kilo") = Except.ok none := by
  have h1 : "about one kilo" ≠ "" := by decide
  have h2 : weightMatch (lowerL "about one kilo".data) = none := by decide
  exact ⟨h1, h2, c8_normalize_weight.2.2.2.2.2 "about one kilo" h1 h2⟩

/-- One brand record from brands.json (built by zepto_scraper.parse_brand_url). -/
structure Brand where
  brand_id : String
  brand_slug : String
  brand_name : String
deriving DecidableEq, Repr

/-- One product record from products_food.json, with the fields the API
endpoints read. -/
structure ApiProduct where
  product_variant_id : String
  slug : String
  name : String
  url : String
  weight : Option String
deriving DecidableEq, Repr

/-- `BRANDS_BY_ID.get` (main.py line 30): a dict comprehension keyed by
`brand_id` keeps the last record for duplicate keys. -/
def brandById (brands : List Brand) (k : String) : Option Brand :=
  (brands.filter (fun b => b.brand_id = k)).getLast?

/-- `BRANDS_BY_SLUG.get` (main.py line 31): keyed by the lowercased slug. -/
def brandBySlug (brands : List Brand) (k : String) : Option Brand :=
  (brands.filter (fun b => lowerS b.brand_slug = k)).getLast?

/-- Products whose slug contains the brand's lowercased slug (main.py
lines 156 and 160). -/
def brandProducts (products : List ApiProduct) (b : Brand) : List ApiProduct :=
  products.filter (fun p => substrOf (lowerS b.brand_slug) (lowerS p.slug))

/-- Response of `GET /brands/{brand_id}` (main.py lines 158-162). -/
structure BrandResponse where
  brand : Brand
  product_count : Nat
  sample_products : List ApiProduct
deriving DecidableEq, Repr

/-- The `get_brand` endpoint (main.py lines 145-162): resolve the path
parameter against the id index, fall back to the lowercased-slug index, 404
(`none`) when both miss. -/
def get_brand (brands : List Brand) (products : List ApiProduct)
    (brand_id : String) : Option BrandResponse :=
  let b1 := match brandById brands brand_id with
    | some b => some b
    | none => brandBySlug brands (lowerS brand_id)
  match b1 with
  | none => none
  | some b =>
    some { brand := b
           product_count := (brandProducts products b).length
           sample_products := (brandProducts products b).take 20 }

/-- C10: the brand endpoint resolves its parameter first against the brand-id
index; only on a miss does it consult the lowercased brand-slug index; and it
returns 404 NotFound exactly when the parameter equals no brand's id and
matches no brand's slug case-insensitively. -/
theorem c10_brand_lookup :
    ∀ (brands : List Brand) (products : List ApiProduct) (param : String),
      (∀ b, brandById brands param = some b →
        ∃ resp, get_brand brands products param = some resp ∧ resp.brand = b) ∧
      (brandById brands param = none →
        ∀ b, brandBySlug brands (lowerS param) = some b →
        ∃ resp, get_brand brands products param = some resp ∧ resp.brand = b) ∧
      (get_brand brands products param = none ↔
        ∀ b ∈ brands, b.brand_id ≠ param ∧ lowerS b.brand_slug ≠ lowerS param) := by
  intro brands products param
  refine ⟨?_, ?_, ?_⟩
  · intro b hb
    have hg : get_brand brands products param = some { brand := b, product_count := (brandProducts products b).length, sample_products := (brandProducts products b).take 20 } := by
      simp only [get_brand, hb]
    exact ⟨_, hg, rfl⟩
  · intro h0 b hb
    have hg : get_brand brands products param = some { brand := b, product_count := (brandProducts products b).length, sample_products := (brandProducts products b).take 20 } := by
      simp only [get_brand, h0, hb]
    exact ⟨_, hg, rfl⟩
  · constructor
    · intro hnone b hbm
      cases hid : brandById brands param with
      | some bb =>
        simp only [get_brand, hid] at hnone
        exact Option.noConfusion hnone
      | none =>
        cases hsl : brandBySlug brands (lowerS param) with
        | some bb =>
          simp only [get_brand, hid, hsl] at hnone
          exact Option.noConfusion hnone
        | none =>
          have hid' : brands.filter (fun b => b.brand_id = param) = [] := by
            have := hid
            unfold brandById at this
            exact List.getLast?_eq_none_iff.mp this
          have hsl' : brands.filter (fun b => lowerS b.brand_slug = lowerS param)
              = [] := by
            have := hsl
            unfold brandBySlug at this
            exact List.getLast?_eq_none_iff.mp this
          constructor
          · intro he
            have : b ∈ brands.filter (fun b => b.brand_id = param) := by
              rw [List.mem_filter]
              exact ⟨hbm, decide_eq_true he⟩
            rw [hid'] at this
            exact absurd this (List.not_mem_nil b)
          · intro he
            have : b ∈ brands.filter (fun b => lowerS b.brand_slug = lowerS param)
                := by
              rw [List.mem_filter]
              exact ⟨hbm, decide_eq_true he⟩
            rw [hsl'] at this
            exact absurd this (List.not_mem_nil b)
    · intro hall
      have hid : brandById brands param = none := by
        unfold brandById
        rw [List.getLast?_eq_none_iff]
        rw [List.filter_eq_nil_iff]
        intro b hbm
        simp only [decide_eq_true_eq]
        exact (hall b hbm).1
      have hsl : brandBySlug brands (lowerS param) = none := by
        unfold brandBySlug
        rw [List.getLast?_eq_none_iff]
        rw [List.filter_eq_nil_iff]
        intro b hbm
        simp only [decide_eq_true_eq]
        exact (hall b hbm).2
      simp only [get_brand, hid, hsl]

def c10wBrands : List Brand :=
  [{ brand_id := "b1", brand_slug := "Amul", brand_name := "Amul" }]

def c10wProducts : List ApiProduct :=
  [{ product_variant_id := "v1", slug := "amul-butter-500-g", name := "Amul Butter",
     url := "u", weight := some "500 g" }]

theorem c10_brand_lookup_witness :
    (brandById c10wBrands "b1" =
      some { brand_id := "b1", brand_slug := "Amul", brand_name := "Amul" } ∧
     ∃ resp, get_brand c10wBrands c10wProducts "b1" = some resp ∧
       resp.brand = { brand_id := "b1", brand_slug := "Amul", brand_name := "Amul" }) ∧
    (brandById c10wBrands "AMUL" = none ∧
     brandBySlug c10wBrands (lowerS "AMUL") =
      some { brand_id := "b1", brand_slug := "Amul", brand_name := "Amul" } ∧
     ∃ resp, get_brand c10wBrands c10wProducts "AMUL" = some resp ∧
       resp.brand = { brand_id := "b1", brand_slug := "Amul", brand_name := "Amul" }) ∧
    (get_brand c10wBrands c10wProducts "nope" = none ↔
      ∀ b ∈ c10wBrands, b.brand_id ≠ "nope" ∧ lowerS b.brand_slug ≠ lowerS "nope") := by
  have h1 : brandById c10wBrands "b1" =
      some { brand_id := "b1", brand_slug := "Amul", brand_name := "Amul" } := by
    decide
  have h2 : brandById c10wBrands "AMUL" = none := by decide
  have h3 : brandBySlug c10wBrands (lowerS "AMUL") =
      some { brand_id := "b1", brand_slug := "Amul", brand_name := "Amul" } := by
    decide
  exact ⟨⟨h1, (c10_brand_lookup c10wBrands c10wProducts "b1").1 _ h1⟩,
    ⟨h2, h3, (c10_brand_lookup c10wBrands c10wProducts "AMUL").2.1 h2 _ h3⟩,
    (c10_brand_lookup c10wBrands c10wProducts "nope").2.2⟩

/-- Product-name keyword filter of the HTML parser (zepto_html_parser.py lines 38-52), verbatim. -/
def PRODUCT_KEYWORDS : List String :=
  ["butter", "spread", "honey", "oil", "vinegar", "sauce", "jam", "chutney",
   "pickle", "jaggery", "ketchup", "dip", "mayo", "mayonnaise", "mustard",
   "syrup", "muesli", "oats", "cereal", "cornflakes", "poha", "upma",
   "pasta", "noodles", "vermicelli", "rice", "dal", "lentil", "beans",
   "chocolate", "cocoa", "coffee", "tea", "milk", "cream", "cheese",
   "paneer", "tofu", "yogurt", "curd", "lassi", "buttermilk", "bread",
   "roti", "naan", "paratha", "biscuit", "cookie", "chips", "namkeen",
   "snack", "nuts", "seeds", "dried", "juice", "drink", "water", "soda",
   "energy", "masala", "spice", "salt", "sugar", "flour", "atta", "ghee",
   "cooking", "olive", "coconut", "sunflower", "protein", "whey",
   "supplement", "vitamin", "organic", "natural", "fresh", "pure"]

/-- Generic model of `re.finditer` for patterns that always consume at least one
character: try an anchored match at each position left to right; on a match emit
its value and resume at the match end, otherwise advance one character.  A
matcher returns its value and the total number of characters consumed.  The
recursion is driven by a fuel counter so that the definition reduces
definitionally; every step consumes at least one character, so fuel equal to
the text length (as supplied by `scanAll`) is never exhausted. -/
def scanAllAux (m : List Char → Option (α × Nat)) : Nat → List Char → List α
  | 0, _ => []
  | _, [] => []
  | fuel + 1, c :: cs =>
    match m (c :: cs) with
    | some (a, n) => a :: scanAllAux m fuel (cs.drop (n - 1))
    | none => scanAllAux m fuel cs

def scanAll (m : List Char → Option (α × Nat)) (l : List Char) : List α :=
  scanAllAux m l.length l

/-- Anchored match of `LABEL\s*:\s*(\d+)` (the shape of the "mrp" and
"sellingPrice" patterns in zepto_html_parser.py lines 68 and 71), returning the
integer capture and the consumed length. -/
def labelNumMatch (label : List Char) (l : List Char) : Option (Nat × Nat) :=
  if label.isPrefixOf l then
    let r1 := l.drop label.length
    let ws1 := (r1.takeWhile isPySpace).length
    match r1.drop ws1 with
    | ':' :: r3 =>
      let ws2 := (r3.takeWhile isPySpace).length
      let ds := (r3.drop ws2).takeWhile Char.isDigit
      if ds.isEmpty then none
      else some (natOfDigits ds, label.length + ws1 + 1 + ws2 + ds.length)
    | _ => none
  else none

/-- Anchored match of `LABEL\s*:\s*"([^"]{lo,hi})"` (the shape of the "name" and
"formattedPacksize" patterns, lines 54 and 60, and of the inner `"id"` pattern
of line 64).  The greedy `[^"]` run can only close at its maximal extent, so the
match succeeds exactly when that run has an admissible length and is followed by
a closing quote. -/
def labelStrMatch (label : List Char) (lo : Nat) (hi : Option Nat)
    (l : List Char) : Option (List Char × Nat) :=
  if label.isPrefixOf l then
    let r1 := l.drop label.length
    let ws1 := (r1.takeWhile isPySpace).length
    match r1.drop ws1 with
    | ':' :: r3 =>
      let ws2 := (r3.takeWhile isPySpace).length
      match r3.drop ws2 with
      | '"' :: r5 =>
        let run := r5.takeWhile (fun c => c ≠ '"')
        if lo ≤ run.length ∧ (∀ h ∈ hi, run.length ≤ h) ∧ run.length < r5.length
        then some (run, label.length + ws1 + 1 + ws2 + 1 + run.length + 1)
        else none
      | _ => none
    | _ => none
  else none

/-- Backtracking of the greedy `[^}]*` of the "productVariant" pattern: try the
inner `"id"` pattern at offset `j` first (largest offset = greedy), then at
smaller offsets.  Returns the capture, the chosen offset and the inner consumed
length. -/
def tryIdFrom (l : List Char) : Nat → Option (List Char × Nat × Nat)
  | 0 => (labelStrMatch "\"id\"".data 1 none l).map (fun vc => (vc.1, 0, vc.2))
  | j + 1 =>
    match labelStrMatch "\"id\"".data 1 none (l.drop (j + 1)) with
    | some (vid, c) => some (vid, j + 1, c)
    | none => tryIdFrom l j

/-- Anchored match of `"productVariant"\s*:\s*\{[^}]*"id"\s*:\s*"([^"]+)"`
(zepto_html_parser.py line 64). -/
def variantMatch (l : List Char) : Option (List Char × Nat) :=
  let label := "\"productVariant\"".data
  if label.isPrefixOf l then
    let r1 := l.drop label.length
    let ws1 := (r1.takeWhile isPySpace).length
    match r1.drop ws1 with
    | ':' :: r3 =>
      let ws2 := (r3.takeWhile isPySpace).length
      match r3.drop ws2 with
      | '\x7b' :: r5 =>
        let run := r5.takeWhile (fun c => c ≠ '\x7d')
        match tryIdFrom r5 run.length with
        | some (vid, j, inner) =>
          some (vid, label.length + ws1 + 1 + ws2 + 1 + j + inner)
        | none => none
      | _ => none
    | _ => none
  else none

/-- Extracted product names (zepto_html_parser.py lines 54-57): every "name"
field of 10-200 characters whose lowercase form contains a product keyword. -/
def findNames (content : List Char) : List (List Char) :=
  (scanAll (labelStrMatch "\"name\"".data 10 (some 200)) content).filter
    (fun nm => PRODUCT_KEYWORDS.any (fun kw => infixOfL kw.data (lowerL nm)))

/-- Extracted pack sizes (lines 60-61). -/
def findPacksizes (content : List Char) : List (List Char) :=
  scanAll (labelStrMatch "\"formattedPacksize\"".data 1 none) content

/-- Extracted variant ids (lines 64-65). -/
def findVariantIds (content : List Char) : List (List Char) :=
  scanAll variantMatch content

/-- Raw "mrp" occurrences, before the every-other dedup (line 68). -/
def findMrpsRaw (content : List Char) : List Nat :=
  scanAll (labelNumMatch "\"mrp\"".data) content

/-- Extracted selling prices (line 71). -/
def findSellingPrices (content : List Char) : List Nat :=
  scanAll (labelNumMatch "\"sellingPrice\"".data) content

/-- Python `round()` (banker's rounding) on an exact rational. -/
def roundHalfEven (q : ℚ) : ℤ :=
  let f := q.floor
  let r := q - (f : ℚ)
  if r < 1/2 then f
  else if 1/2 < r then f + 1
  else if f % 2 = 0 then f else f + 1

/-- One extracted product record (zepto_html_parser.py lines 82-89). -/
structure ZProduct where
  name : List Char
  packsize : List Char
  mrp : ℚ
  selling_price : ℚ
  discount_pct : ℤ
  variant_id : Option (List Char)
deriving DecidableEq, Repr

/-- The extraction core of `parse_zepto_html` (zepto_html_parser.py lines
30-91), over already-unescaped content text: collect the five field arrays,
halve the duplicated mrp stream by taking every other occurrence, and build one
record per index below the minimum length of the four zipped arrays (variant
ids fall back to `None` past their end).  Prices are converted from paise; the
source computes `discount_pct` in floating point, modelled here with exact
rationals (no claim depends on its rounding). -/
def parse_zepto_content (content : List Char) : List ZProduct :=
  let names := findNames content
  let packsizes := findPacksizes content
  let variant_ids := findVariantIds content
  let mrps := everyOther (findMrpsRaw content)
  let selling_prices := findSellingPrices content
  let min_len := min (min (min names.length mrps.length) selling_prices.length)
    packsizes.length
  (List.range min_len).map (fun i =>
    let mrp := ((mrps.getD i 0 : ℚ)) / 100
    let selling := ((selling_prices.getD i 0 : ℚ)) / 100
    { name := names.getD i []
      packsize := packsizes.getD i []
      mrp := mrp
      selling_price := selling
      discount_pct := if 0 < mrp then roundHalfEven ((1 - selling / mrp) * 100)
        else 0
      variant_id := variant_ids.get? i })

/-- Python `str.replace` (leftmost, non-overlapping) for a nonempty pattern. -/
def replaceAll (pat rep : List Char) : List Char → List Char
  | [] => []
  | c :: cs =>
    if ¬ pat.isEmpty ∧ pat.isPrefixOf (c :: cs)
    then rep ++ replaceAll pat rep (cs.drop (pat.length - 1))
    else c :: replaceAll pat rep cs
termination_by l => l.length
decreasing_by
  · simp only [List.length_drop, List.length_cons]
    omega
  · simp

/-- The escape cleanup of zepto_html_parser.py line 28: `\"` to `"`, `\n` to a
newline, `\/` to `/`, applied in that order. -/
def cleanContent (raw : List Char) : List Char :=
  replaceAll ['\\', '/'] ['/']
    (replaceAll ['\\', 'n'] ['\n']
      (replaceAll ['\\', '"'] ['"'] raw))

/-- `parse_zepto_html` after file reading (lines 24-28): HTML-entity unescaping
(`html.unescape`, a Python stdlib table lookup) is not modelled; the function is
taken from the escape cleanup onward. -/
def parse_zepto_html (raw : List Char) : List ZProduct :=
  parse_zepto_content (cleanContent raw)

/-- A list in which every element appears exactly twice, consecutively. -/
def dupEach (l : List α) : List α := l.flatMap (fun x => [x, x])

/-- Taking every other element of a consecutively-duplicated list recovers the
original list: the `[::2]` dedup is exact on duplicated streams. -/
theorem everyOther_dupEach (l : List α) : everyOther (dupEach l) = l := by
  induction l with
  | nil => rfl
  | cons x xs ih =>
    show everyOther (x :: x :: dupEach xs) = x :: xs
    rw [everyOther, ih]

/-- The number of records built equals the minimum of the four zipped field
array lengths (variant ids are not part of the minimum). -/
theorem parse_zepto_content_length (content : List Char) :
    (parse_zepto_content content).length =
      min (min (min (findNames content).length
        (everyOther (findMrpsRaw content)).length)
        (findSellingPrices content).length) (findPacksizes content).length := by
  simp [parse_zepto_content]

/-- C5: whenever the raw "mrp" occurrence stream consists of each logical
value duplicated once, consecutively (so 4 occurrences for 2 products), the
extractor's every-other dedup recovers exactly one value per logical product,
and — with matching counts of names, selling prices and pack sizes — it emits
exactly one record per logical product (2 records from 4 occurrences, not 4). -/
theorem c5_mrp_dedup :
    ∀ (content : List Char) (l : List Nat),
      findMrpsRaw content = dupEach l →
      everyOther (findMrpsRaw content) = l ∧
      ((findNames content).length = l.length →
       (findSellingPrices content).length = l.length →
       (findPacksizes content).length = l.length →
       (parse_zepto_content content).length = l.length) := by
  intro content l hdup
  have hm : everyOther (findMrpsRaw content) = l := by
    rw [hdup, everyOther_dupEach]
  refine ⟨hm, ?_⟩
  intro hn hs hp
  rw [parse_zepto_content_length, hm, hn, hs, hp]
  simp

/-- Concrete input for C5: two logical products, each with its "mrp" duplicated
(4 occurrences in total). -/
def c5wContent : List Char :=
  ("\"name\": \"Organic Honey Pure\", \"formattedPacksize\": \"500 g\", " ++
   "\"mrp\": 50000, \"mrp\": 50000, \"sellingPrice\": 45000, " ++
   "\"name\": \"Green Tea Classic\", \"formattedPacksize\": \"100 g\", " ++
   "\"mrp\": 20000, \"mrp\": 20000, \"sellingPrice\": 18000").data

set_option maxRecDepth 100000 in
theorem c5_mrp_dedup_witness :
    findMrpsRaw c5wContent = dupEach [50000, 20000] ∧
    everyOther (findMrpsRaw c5wContent) = [50000, 20000] ∧
    (findNames c5wContent).length = 2 ∧
    (findSellingPrices c5wContent).length = 2 ∧
    (findPacksizes c5wContent).length = 2 ∧
    (parse_zepto_content c5wContent).length = 2 := by
  have hdup : findMrpsRaw c5wContent = dupEach [50000, 20000] := by decide
  have hn : (findNames c5wContent).length = 2 := by decide
  have hs : (findSellingPrices c5wContent).length = 2 := by decide
  have hp : (findPacksizes c5wContent).length = 2 := by decide
  obtain ⟨h1, h2⟩ := c5_mrp_dedup c5wContent [50000, 20000] hdup
  exact ⟨hdup, h1, hn, hs, hp, h2 hn hs hp⟩

/-- C6 (amended): the extractor yields one record per index below the minimum
of the lengths of the names, deduped mrps, selling prices and pack sizes arrays
— the variant-id array is NOT part of that minimum; instead each record's
variant id is the i-th extracted variant id when one exists and `None`
otherwise.  Trailing unmatched values are dropped without error. -/
theorem c6_min_truncation :
    ∀ content : List Char,
      (parse_zepto_content content).length =
        min (min (min (findNames content).length
          (everyOther (findMrpsRaw content)).length)
          (findSellingPrices content).length) (findPacksizes content).length ∧
      (∀ i r, (parse_zepto_content content).get? i = some r →
        r.variant_id = (findVariantIds content).get? i) := by
  intro content
  refine ⟨parse_zepto_content_length content, ?_⟩
  intro i r hr
  simp only [parse_zepto_content, List.get?_eq_getElem?, List.getElem?_map] at hr
  rw [Option.map_eq_some'] at hr
  obtain ⟨j, hj, hfj⟩ := hr
  rw [List.getElem?_eq_some] at hj
  obtain ⟨hlt, hval⟩ := hj
  rw [List.getElem_range] at hval
  subst hval
  rw [← hfj]
  simp [List.get?_eq_getElem?]

/-- Concrete input for the C6 counterexample: one complete product (name, one
mrp occurrence, selling price, pack size) but no "productVariant" block at all,
so the variant-id array is empty while the other four arrays have length 1. -/
def c6wContent : List Char :=
  ("\"name\": \"Amul Salted Butter\", \"formattedPacksize\": \"500 g\", " ++
   "\"mrp\": 50000, \"sellingPrice\": 45000").data

set_option maxRecDepth 100000 in
/-- C6 counterexample: the extractor emits one record here, but the minimum
over all five extracted field arrays (variant ids included) is 0 — so the
record count does not equal the five-way minimum claimed; variant ids are
excluded from the truncation and padded with `None` instead. -/
theorem c6_counterexample :
    (parse_zepto_content c6wContent).length = 1 ∧
    (findNames c6wContent).length = 1 ∧
    (everyOther (findMrpsRaw c6wContent)).length = 1 ∧
    (findSellingPrices c6wContent).length = 1 ∧
    (findPacksizes c6wContent).length = 1 ∧
    (findVariantIds c6wContent).length = 0 ∧
    min (min (min (min (findNames c6wContent).length
      (everyOther (findMrpsRaw c6wContent)).length)
      (findSellingPrices c6wContent).length) (findPacksizes c6wContent).length)
      (findVariantIds c6wContent).length = 0 := by
  refine ⟨by decide, by decide, by decide, by decide, by decide, by decide,
    by decide⟩

instance : Inhabited ZProduct := ⟨⟨[], [], 0, 0, 0, none⟩⟩

/-- Concrete input for the C6 witness: one complete product including a
"productVariant" block. -/
def c6wContent2 : List Char :=
  ("\"name\": \"Amul Salted Butter\", \"formattedPacksize\": \"500 g\", " ++
   "\"mrp\": 50000, \"sellingPrice\": 45000, " ++
   "\"productVariant\": \x7b\"id\": \"aa-11\"\x7d").data

def c6wRec : ZProduct := ((parse_zepto_content c6wContent2).get? 0).getD default

set_option maxRecDepth 100000 in
theorem c6_min_truncation_witness :
    (parse_zepto_content c6wContent2).length =
      min (min (min (findNames c6wContent2).length
        (everyOther (findMrpsRaw c6wContent2)).length)
        (findSellingPrices c6wContent2).length)
        (findPacksizes c6wContent2).length ∧
    (parse_zepto_content c6wContent2).get? 0 = some c6wRec ∧
    c6wRec.variant_id = (findVariantIds c6wContent2).get? 0 := by
  have h0 : (parse_zepto_content c6wContent2).get? 0 = some c6wRec := by rfl
  exact ⟨(c6_min_truncation c6wContent2).1, h0,
    (c6_min_truncation c6wContent2).2 0 c6wRec h0⟩

/-- The character class `[a-f0-9-]` of the variant-id capture
(zepto_scraper.py line 44). -/
def isVidChar (c : Char) : Bool :=
  ('a' ≤ c && c ≤ 'f') || c.isDigit || c = '-'

/-- Anchored match of `/pn/([^/]+)/pvid/([a-f0-9-]+)` (the part of the pattern
of zepto_scraper.py line 44 after `.*`), returning the slug and variant-id
captures.  The greedy `[^/]+` must end exactly at its maximal extent (its
characters cannot make up the following `/`), and `[a-f0-9-]+` is final, so
both are maximal-munch. -/
def pnTail (l : List Char) : Option (List Char × List Char) :=
  bif "/pn/".data.isPrefixOf l then
    let r1 := l.drop 4
    let slug := r1.takeWhile (fun c => c ≠ '/')
    bif slug.isEmpty then none
    else
      let r2 := r1.drop slug.length
      bif "/pvid/".data.isPrefixOf r2 then
        let vid := (r2.drop 6).takeWhile isVidChar
        bif vid.isEmpty then none else some (slug, vid)
      else none
  else none

/-- Backtracking of the leading greedy `.*` of `re.match`: try the tail pattern
at the largest allowed start position first, then at smaller ones; the first
success wins. -/
def searchFrom (url : List Char) : Nat → Option (List Char × List Char)
  | 0 => pnTail url
  | i + 1 =>
    match pnTail (url.drop (i + 1)) with
    | some r => some r
    | none => searchFrom url i

/-- `re.match(r".*/pn/([^/]+)/pvid/([a-f0-9-]+)", url)`: `.` does not cross a
newline, so the tail pattern may start no later than the first newline; within
that bound the greedy `.*` selects the largest start position whose tail
matches. -/
def matchProductUrl (url : List Char) : Option (List Char × List Char) :=
  searchFrom url (url.takeWhile (fun c => c ≠ '\n')).length

/-- Python `str.title()` on ASCII text: a letter is uppercased after a
non-letter and lowercased after a letter. -/
def pyTitleAux : Bool → List Char → List Char
  | _, [] => []
  | prev, c :: cs =>
    (if c.isAlpha then (if prev then c.toLower else c.toUpper) else c) ::
      pyTitleAux c.isAlpha cs

def pyTitle (l : List Char) : List Char := pyTitleAux false l

/-- Unit alternation of the weight pattern of zepto_scraper.py line 55, in
source order. -/
def urlWeightUnits : List String :=
  ["kg", "g", "ml", "l", "litre", "liter", "gm", "gram", "pack", "piece", "pc",
   "count", "unit"]

/-- Case-insensitive anchored test for a lowercase literal. -/
def ciPrefix (pat : List Char) (l : List Char) : Bool :=
  pat.isPrefixOf (lowerL (l.take pat.length))

/-- Anchored case-insensitive match of
`(\d+(?:\.\d+)?)\s*(kg|g|ml|l|litre|liter|gm|gram|pack|piece|pc|count|unit)`
(zepto_scraper.py lines 55-56), returning the total matched length.  The
quantifiers are deterministic here: shrinking any of them leaves the next
character a digit, dot or space, which no unit alternative can start with. -/
def weightAnch (l : List Char) : Option Nat :=
  let ds := l.takeWhile Char.isDigit
  if ds.isEmpty then none
  else
    let r1 := l.drop ds.length
    let fracLen :=
      match r1 with
      | '.' :: r2 =>
        let fd := r2.takeWhile Char.isDigit
        if fd.isEmpty then 0 else fd.length + 1
      | _ => 0
    let r3 := r1.drop fracLen
    let ws := (r3.takeWhile isPySpace).length
    match urlWeightUnits.find? (fun u => ciPrefix u.data (r3.drop ws)) with
    | some u => some (ds.length + fracLen + ws + u.data.length)
    | none => none

/-- `re.search` with the weight pattern: first matching position, returning the
whole matched span (`group(0)`). -/
def searchWeight : List Char → Option (List Char)
  | [] => none
  | c :: cs =>
    match weightAnch (c :: cs) with
    | some n => some ((c :: cs).take n)
    | none => searchWeight cs

/-- The record built by `parse_product_url` (zepto_scraper.py lines 58-64). -/
structure UrlProduct where
  product_variant_id : List Char
  slug : List Char
  name : List Char
  url : List Char
  weight : Option (List Char)
deriving DecidableEq, Repr

instance : Inhabited UrlProduct := ⟨⟨[], [], [], [], none⟩⟩

/-- `parse_product_url` (zepto_scraper.py lines 40-64): extract slug and
variant id via the URL pattern (or return `None`), derive the display name by
un-hyphenating, URL-decoding and title-casing the slug, and search the
un-hyphenated slug for a weight phrase. -/
def parse_product_url (url : List Char) : Option UrlProduct :=
  match matchProductUrl url with
  | none => none
  | some (slug, pvid) =>
    let spaced := slug.map (fun c => if c = '-' then ' ' else c)
    some { product_variant_id := pvid
           slug := slug
           name := pyTitle (unquoteL spaced)
           url := url
           weight := searchWeight spaced }

/-- A run of satisfying elements followed by a failing one is exactly what
`takeWhile` cuts. -/
theorem takeWhile_append_not (p : α → Bool) (a : List α) (c : α) (b : List α)
    (ha : ∀ x ∈ a, p x = true) (hc : p c = false) :
    (a ++ c :: b).takeWhile p = a := by
  induction a with
  | nil => simp [List.takeWhile_cons, hc]
  | cons x xs ih =>
    have hx : p x = true := ha x (List.mem_cons_self x xs)
    simp only [List.cons_append, List.takeWhile_cons, hx, if_true]
    rw [ih (fun y hy => ha y (List.mem_cons_of_mem x hy))]

/-- `takeWhile` keeps a fully satisfying list whole. -/
theorem takeWhile_all (p : α → Bool) (a : List α) (ha : ∀ x ∈ a, p x = true) :
    a.takeWhile p = a := by
  induction a with
  | nil => rfl
  | cons x xs ih =>
    have hx : p x = true := ha x (List.mem_cons_self x xs)
    simp only [List.takeWhile_cons, hx, if_true]
    rw [ih (fun y hy => ha y (List.mem_cons_of_mem x hy))]

/-- Shape characterization of the `/pn/` literal test. -/
theorem pn_prefix_iff (t : List Char) :
    ("/pn/".data.isPrefixOf t = true) ↔
      ∃ r, t = '/' :: 'p' :: 'n' :: '/' :: r := by
  show (['/', 'p', 'n', '/'].isPrefixOf t = true) ↔ _
  rcases t with _ | ⟨c1, t⟩
  · simp [List.isPrefixOf]
  rcases t with _ | ⟨c2, t⟩
  · simp [List.isPrefixOf]
  rcases t with _ | ⟨c3, t⟩
  · simp [List.isPrefixOf]
  rcases t with _ | ⟨c4, t⟩
  · simp [List.isPrefixOf]
  · simp only [List.isPrefixOf, Bool.and_eq_true, beq_iff_eq, List.cons.injEq]
    constructor
    · rintro ⟨h1, h2, h3, h4, _⟩
      exact ⟨t, by rw [← h1, ← h2, ← h3, ← h4]; simp⟩
    · rintro ⟨r, h1, h2, h3, h4, h5⟩
      subst h5
      exact ⟨h1.symm, h2.symm, h3.symm, h4.symm, by simp [List.isPrefixOf]⟩

/-- `pnTail` fails on any text not literally starting with `/pn/`. -/
theorem pnTail_none_of_shape (t : List Char)
    (h : ∀ r, t ≠ '/' :: 'p' :: 'n' :: '/' :: r) : pnTail t = none := by
  have hp : ("/pn/".data.isPrefixOf t) = false := by
    cases hb : ("/pn/".data.isPrefixOf t) with
    | false => rfl
    | true =>
      obtain ⟨r, hr⟩ := (pn_prefix_iff t).mp hb
      exact absurd hr (h r)
  simp only [pnTail, hp, Bool.cond_false]

/-- A variant-id character is not a slash. -/
theorem vidChar_ne_slash (c : Char) (h : isVidChar c = true) : c ≠ '/' := by
  intro e
  subst e
  exact absurd h (by decide)

/-- A variant-id character is not the letter p. -/
theorem vidChar_ne_p (c : Char) (h : isVidChar c = true) : c ≠ 'p' := by
  intro e
  subst e
  exact absurd h (by decide)

/-- `takeWhile` passes over a fully satisfying left part of an append. -/
theorem takeWhile_append_all (p : α → Bool) (a b : List α)
    (ha : ∀ x ∈ a, p x = true) :
    (a ++ b).takeWhile p = a ++ b.takeWhile p := by
  induction a with
  | nil => rfl
  | cons x xs ih =>
    have hx : p x = true := ha x (List.mem_cons_self x xs)
    simp only [List.cons_append, List.takeWhile_cons, hx, if_true]
    rw [ih (fun y hy => ha y (List.mem_cons_of_mem x hy))]

/-- The tail pattern matches at the canonical position of a well-formed product
URL, capturing exactly the slug and the variant id. -/
theorem pnTail_canonical (S V : List Char) (hS : ∀ c ∈ S, c ≠ '/')
    (hSne : S ≠ []) (hVne : V ≠ []) (hV : ∀ c ∈ V, isVidChar c = true) :
    pnTail ('/' :: 'p' :: 'n' :: '/' ::
      (S ++ '/' :: 'p' :: 'v' :: 'i' :: 'd' :: '/' :: V)) = some (S, V) := by
  have hp : ("/pn/".data.isPrefixOf ('/' :: 'p' :: 'n' :: '/' ::
      (S ++ '/' :: 'p' :: 'v' :: 'i' :: 'd' :: '/' :: V))) = true := by
    simp [List.isPrefixOf]
  have htw : (S ++ '/' :: 'p' :: 'v' :: 'i' :: 'd' :: '/' :: V).takeWhile
      (fun c => c ≠ '/') = S :=
    takeWhile_append_not _ _ _ _ (fun x hx => decide_eq_true (hS x hx)) (by decide)
  have hne : S.isEmpty = false := by
    cases S with
    | nil => exact absurd rfl hSne
    | cons x xs => rfl
  have hpv : ("/pvid/".data.isPrefixOf
      ('/' :: 'p' :: 'v' :: 'i' :: 'd' :: '/' :: V)) = true := by
    simp [List.isPrefixOf]
  have hvtw : V.takeWhile isVidChar = V := takeWhile_all _ _ hV
  have hvne : V.isEmpty = false := by
    cases V with
    | nil => exact absurd rfl hVne
    | cons x xs => rfl
  have hd4 : ('/' :: 'p' :: 'n' :: '/' ::
      (S ++ '/' :: 'p' :: 'v' :: 'i' :: 'd' :: '/' :: V)).drop 4 =
      S ++ '/' :: 'p' :: 'v' :: 'i' :: 'd' :: '/' :: V := rfl
  have hd6 : ('/' :: 'p' :: 'v' :: 'i' :: 'd' :: '/' :: V).drop 6 = V := rfl
  simp only [pnTail, hp, Bool.cond_true, hd4, htw, hne, Bool.cond_false,
    List.drop_left, hd6, hpv, hvtw, hvne]

/-- Decompose a successful tail match: the text must begin with `/pn/`. -/
theorem pnTail_some_shape (t : List Char) (r : List Char × List Char)
    (hp : pnTail t = some r) : ∃ rr, t = '/' :: 'p' :: 'n' :: '/' :: rr := by
  by_cases hsh : ∀ rr, t ≠ '/' :: 'p' :: 'n' :: '/' :: rr
  · rw [pnTail_none_of_shape t hsh] at hp
    exact absurd hp (by simp)
  · push_neg at hsh
    exact hsh

/-- Descending search: if the tail pattern matches at `i` and nowhere above,
the search started at any bound ≥ `i` returns that match. -/
theorem searchFrom_eq_of (url : List Char) (i : Nat) (r : List Char × List Char)
    (hi : pnTail (url.drop i) = some r)
    (habove : ∀ j, i < j → pnTail (url.drop j) = none) :
    ∀ b, i ≤ b → searchFrom url b = some r := by
  intro b
  induction b with
  | zero =>
    intro hb
    have h0 : i = 0 := Nat.le_zero.mp hb
    subst h0
    show pnTail url = some r
    simpa using hi
  | succ b ih =>
    intro hb
    by_cases hib : i = b + 1
    · subst hib
      simp [searchFrom, hi]
    · have hnone : pnTail (url.drop (b + 1)) = none := habove (b + 1) (by omega)
      simp [searchFrom, hnone, ih (by omega)]

/-- Descending search fails when the tail pattern matches nowhere. -/
theorem searchFrom_none (url : List Char) (b : Nat)
    (h : ∀ j, pnTail (url.drop j) = none) : searchFrom url b = none := by
  induction b with
  | zero =>
    show pnTail url = none
    simpa using h 0
  | succ b ih => simp [searchFrom, h (b + 1), ih]

/-- Above the canonical position, the tail pattern never matches: every deeper
suffix of a well-formed product URL tail either fails the `/pn/` literal, or —
in the single overlap case `slug = "pn"` — fails at the `/pvid/` literal
because a variant id cannot start with `p`. -/
theorem pnTail_above_none (S V : List Char) (hS : ∀ c ∈ S, c ≠ '/')
    (hV : ∀ c ∈ V, isVidChar c = true) :
    ∀ d, 1 ≤ d →
      pnTail (('/' :: 'p' :: 'n' :: '/' ::
        (S ++ '/' :: 'p' :: 'v' :: 'i' :: 'd' :: '/' :: V)).drop d) = none := by
  intro d hd
  rcases Nat.lt_or_ge d 4 with h4 | h4
  · interval_cases d
    · apply pnTail_none_of_shape
      intro r he
      simp at he
    · apply pnTail_none_of_shape
      intro r he
      simp at he
    · show pnTail ('/' :: (S ++ '/' :: 'p' :: 'v' :: 'i' :: 'd' :: '/' :: V)) = none
      rcases S with _ | ⟨a, S1⟩
      · apply pnTail_none_of_shape
        intro r he
        simp at he
      rcases S1 with _ | ⟨b, S2⟩
      · apply pnTail_none_of_shape
        intro r he
        simp at he
      rcases S2 with _ | ⟨c, S3⟩
      · by_cases hab : a = 'p' ∧ b = 'n'
        · obtain ⟨rfl, rfl⟩ := hab
          show pnTail ('/' :: 'p' :: 'n' :: '/' ::
            ('p' :: 'v' :: 'i' :: 'd' :: '/' :: V)) = none
          have hp : ("/pn/".data.isPrefixOf ('/' :: 'p' :: 'n' :: '/' ::
              ('p' :: 'v' :: 'i' :: 'd' :: '/' :: V))) = true := by
            simp [List.isPrefixOf]
          have hd4 : ('/' :: 'p' :: 'n' :: '/' ::
              ('p' :: 'v' :: 'i' :: 'd' :: '/' :: V)).drop 4 =
              'p' :: 'v' :: 'i' :: 'd' :: '/' :: V := rfl
          have htw : ('p' :: 'v' :: 'i' :: 'd' :: '/' :: V).takeWhile
              (fun c => c ≠ '/') = ['p', 'v', 'i', 'd'] := rfl
          have hie : (['p', 'v', 'i', 'd'] : List Char).isEmpty = false := rfl
          have hd5 : ('p' :: 'v' :: 'i' :: 'd' :: '/' :: V).drop
              (['p', 'v', 'i', 'd'] : List Char).length = '/' :: V := rfl
          have hpv : ("/pvid/".data.isPrefixOf ('/' :: V)) = false := by
            cases V with
            | nil => rfl
            | cons v0 V2 =>
              have h2 : ('p' == v0) = false := by
                simp only [beq_eq_false_iff_ne]
                exact fun e =>
                  (vidChar_ne_p v0 (hV v0 (List.mem_cons_self v0 V2))) e.symm
              simp [List.isPrefixOf, h2]
          simp only [pnTail, hp, Bool.cond_true, hd4, htw, hie, Bool.cond_false,
            hd5, hpv]
        · apply pnTail_none_of_shape
          intro r he
          simp at he
          exact hab ⟨he.1, he.2.1⟩
      · apply pnTail_none_of_shape
        intro r he
        simp at he
        exact hS c (by simp) he.2.2.1
  · obtain ⟨e, rfl⟩ : ∃ e, d = e + 4 := ⟨d - 4, by omega⟩
    have hred : ('/' :: 'p' :: 'n' :: '/' ::
        (S ++ '/' :: 'p' :: 'v' :: 'i' :: 'd' :: '/' :: V)).drop (e + 4) =
        (S ++ '/' :: 'p' :: 'v' :: 'i' :: 'd' :: '/' :: V).drop e := rfl
    rw [hred]
    rcases Nat.lt_or_ge e S.length with he | he
    · rw [List.drop_append_eq_append_drop]
      have h0 : e - S.length = 0 := by omega
      rw [h0]
      simp only [List.drop_zero]
      cases hdrop : S.drop e with
      | nil =>
        exact absurd (List.drop_eq_nil_iff.mp hdrop) (by omega)
      | cons y ys =>
        have hy : y ∈ S := by
          have h0 : y ∈ S.drop e := by
            rw [hdrop]
            exact List.mem_cons_self y ys
          exact List.mem_of_mem_drop h0
        apply pnTail_none_of_shape
        intro r hr
        rw [List.cons_append] at hr
        injection hr with h1 _
        exact hS y hy h1
    · obtain ⟨f, rfl⟩ : ∃ f, e = S.length + f := ⟨e - S.length, by omega⟩
      rw [List.drop_append]
      rcases Nat.lt_or_ge f 6 with hf | hf
      · interval_cases f
        · apply pnTail_none_of_shape
          intro r he2
          simp at he2
        · apply pnTail_none_of_shape
          intro r he2
          simp at he2
        · apply pnTail_none_of_shape
          intro r he2
          simp at he2
        · apply pnTail_none_of_shape
          intro r he2
          simp at he2
        · apply pnTail_none_of_shape
          intro r he2
          simp at he2
        · apply pnTail_none_of_shape
          intro r he2
          rw [show ('/' :: 'p' :: 'v' :: 'i' :: 'd' :: '/' :: V).drop 5 =
            '/' :: V from rfl] at he2
          injection he2 with _ h2
          have hp' : 'p' ∈ V := by
            rw [h2]
            exact List.mem_cons_self _ _
          exact absurd (hV 'p' hp') (by decide)
      · obtain ⟨g, rfl⟩ : ∃ g, f = g + 6 := ⟨f - 6, by omega⟩
        rw [show ('/' :: 'p' :: 'v' :: 'i' :: 'd' :: '/' :: V).drop (g + 6) =
          V.drop g from rfl]
        cases hdrop : V.drop g with
        | nil => rfl
        | cons y ys =>
          have hy : y ∈ V := by
            have h0 : y ∈ V.drop g := by
              rw [hdrop]
              exact List.mem_cons_self y ys
            exact List.mem_of_mem_drop h0
          apply pnTail_none_of_shape
          intro r he2
          injection he2 with h1 _
          exact vidChar_ne_slash y (hV y hy) h1

/-- C7 (amended): for every product URL built as
`{prefix}/pn/{slug}/pvid/{variantId}` from a newline-free prefix, a nonempty
slug containing no `/`, and a nonempty variant id over `[a-f0-9-]`, the
reference parser returns a record whose `slug` and `product_variant_id` equal
the parts used to construct the URL (round-trip); and any URL that does not
even contain the `/pn/` marker yields `None` — a filtering signal, not an
error.  The amendment: the slug must be nonempty, since the URL pattern's
`[^/]+` cannot match an empty slug. -/
theorem c7_url_roundtrip :
    (∀ (pre slug vid : List Char),
      '\n' ∉ pre → '/' ∉ slug → slug ≠ [] → vid ≠ [] →
      (∀ c ∈ vid, isVidChar c = true) →
      ∃ r, parse_product_url
          (pre ++ ['/', 'p', 'n', '/'] ++ slug ++
            ['/', 'p', 'v', 'i', 'd', '/'] ++ vid) = some r ∧
        r.slug = slug ∧ r.product_variant_id = vid) ∧
    (∀ url : List Char, ¬ (['/', 'p', 'n', '/'] <:+: url) →
      parse_product_url url = none) := by
  constructor
  · intro pre slug vid hnl hsl hsne hvne hvc
    have hS : ∀ c ∈ slug, c ≠ '/' := fun c hc e => hsl (e ▸ hc)
    have hurl : pre ++ ['/', 'p', 'n', '/'] ++ slug ++
        ['/', 'p', 'v', 'i', 'd', '/'] ++ vid =
        pre ++ ('/' :: 'p' :: 'n' :: '/' ::
          (slug ++ '/' :: 'p' :: 'v' :: 'i' :: 'd' :: '/' :: vid)) := by
      simp [List.append_assoc]
    rw [hurl]
    have hi : pnTail ((pre ++ ('/' :: 'p' :: 'n' :: '/' ::
        (slug ++ '/' :: 'p' :: 'v' :: 'i' :: 'd' :: '/' :: vid))).drop
          pre.length) = some (slug, vid) := by
      rw [List.drop_left]
      exact pnTail_canonical slug vid hS hsne hvne hvc
    have habove : ∀ j, pre.length < j →
        pnTail ((pre ++ ('/' :: 'p' :: 'n' :: '/' ::
          (slug ++ '/' :: 'p' :: 'v' :: 'i' :: 'd' :: '/' :: vid))).drop j) =
          none := by
      intro j hj
      obtain ⟨k, rfl⟩ : ∃ k, j = pre.length + k := ⟨j - pre.length, by omega⟩
      rw [List.drop_append]
      exact pnTail_above_none slug vid hS hvc k (by omega)
    have hpre : ∀ x ∈ pre, (fun c => decide (c ≠ '\n')) x = true := by
      intro x hx
      simp only [decide_eq_true_eq]
      intro e
      exact hnl (e ▸ hx)
    have hbound : pre.length ≤ ((pre ++ ('/' :: 'p' :: 'n' :: '/' ::
        (slug ++ '/' :: 'p' :: 'v' :: 'i' :: 'd' :: '/' :: vid))).takeWhile
          (fun c => c ≠ '\n')).length := by
      rw [takeWhile_append_all (fun c => decide (c ≠ '\n')) pre
        ('/' :: 'p' :: 'n' :: '/' ::
          (slug ++ '/' :: 'p' :: 'v' :: 'i' :: 'd' :: '/' :: vid)) hpre]
      simp
    have hm : matchProductUrl (pre ++ ('/' :: 'p' :: 'n' :: '/' ::
        (slug ++ '/' :: 'p' :: 'v' :: 'i' :: 'd' :: '/' :: vid))) =
        some (slug, vid) := by
      unfold matchProductUrl
      exact searchFrom_eq_of _ _ _ hi habove _ hbound
    have hg : parse_product_url (pre ++ ('/' :: 'p' :: 'n' :: '/' :: (slug ++ '/' :: 'p' :: 'v' :: 'i' :: 'd' :: '/' :: vid))) = some ⟨vid, slug, pyTitle (unquoteL (slug.map (fun c => if c = '-' then ' ' else c))), pre ++ ('/' :: 'p' :: 'n' :: '/' :: (slug ++ '/' :: 'p' :: 'v' :: 'i' :: 'd' :: '/' :: vid)), searchWeight (slug.map (fun c => if c = '-' then ' ' else c))⟩ := by
      unfold parse_product_url
      rw [hm]
    exact ⟨_, hg, rfl, rfl⟩
  · intro url hinf
    have hall : ∀ j, pnTail (url.drop j) = none := by
      intro j
      cases hp : pnTail (url.drop j) with
      | none => rfl
      | some r =>
        obtain ⟨rr, hrr⟩ := pnTail_some_shape _ _ hp
        exfalso
        apply hinf
        have h1 : ['/', 'p', 'n', '/'] <+: url.drop j := ⟨rr, by rw [hrr]; rfl⟩
        exact h1.isInfix.trans (List.drop_suffix j url).isInfix
    unfold parse_product_url matchProductUrl
    rw [searchFrom_none _ _ hall]

set_option maxRecDepth 40000 in
/-- C7 counterexample: the URL built from the empty slug (which contains no
`/` character) and the pattern-conforming variant id "abc123" makes the parser
return `None` instead of a record carrying that slug and variant id: the
original claim fails for empty slugs. -/
theorem c7_counterexample :
    parse_product_url ("https://www.zepto.com".data ++ ['/', 'p', 'n', '/'] ++
      ([] : List Char) ++ ['/', 'p', 'v', 'i', 'd', '/'] ++ "abc123".data) =
      none ∧
    ('/' ∉ ([] : List Char)) ∧
    "abc123".data ≠ [] ∧
    (∀ c ∈ "abc123".data, isVidChar c = true) := by
  exact ⟨by decide, by decide, by decide, by decide⟩

def c7wPre : List Char := "https://www.zepto.com".data

def c7wSlug : List Char := "amul-butter-500-g".data

def c7wVid : List Char := "abc-123".data

set_option maxRecDepth 40000 in
theorem c7_url_roundtrip_witness :
    ('\n' ∉ c7wPre) ∧ ('/' ∉ c7wSlug) ∧ c7wSlug ≠ [] ∧ c7wVid ≠ [] ∧
    (∀ c ∈ c7wVid, isVidChar c = true) ∧
    (∃ r, parse_product_url (c7wPre ++ ['/', 'p', 'n', '/'] ++ c7wSlug ++
        ['/', 'p', 'v', 'i', 'd', '/'] ++ c7wVid) = some r ∧
      r.slug = c7wSlug ∧ r.product_variant_id = c7wVid) ∧
    (¬ (['/', 'p', 'n', '/'] <:+: "https://www.zepto.com/brand/amul/b1".data)) ∧
    parse_product_url "https://www.zepto.com/brand/amul/b1".data = none := by
  have hni : ¬ (['/', 'p', 'n', '/'] <:+:
      "https://www.zepto.com/brand/amul/b1".data) := by decide
  exact ⟨by decide, by decide, by decide, by decide, by decide,
    c7_url_roundtrip.1 c7wPre c7wSlug c7wVid (by decide) (by decide) (by decide)
      (by decide) (by decide),
    hni, c7_url_roundtrip.2 "https://www.zepto.com/brand/amul/b1".data hni⟩
